import Mathlib

/-!
Shallow embedding of the phase2 delivery-simulation core
(`src/phase2/...`: `point.py`, `request.py`, `driver.py`, `offer.py`,
`policies/`, `behaviour/`, `mutationrule/`, `delivery_simulation.py`).

Modelling conventions:
* Python floats are modelled as real numbers (`ℝ`), Python ints as `ℤ`.
* Python objects held by reference are stored in engine-owned arenas
  (`List Driver`, `List Request`); `Driver.current_request` holds the
  index of the request in the engine's `requests` list instead of an
  object reference.  Requests are only ever appended, so indices are
  stable, and two aliases of one object are exactly two uses of one
  index.
* String statuses ("WAITING", "IDLE", ...) become closed inductives.
* The shipped strategy objects (two dispatch policies, three behaviours,
  two mutation rules) become closed inductives carrying their
  constructor parameters, as the spec itself suggests for reimplementation.
* `random.random()` draws are supplied by an explicit oracle argument.
* Calls that Python guards with try/except are embedded total; where an
  exception path is actually reachable and relevant (the tuple-sort
  tie in GlobalGreedyPolicy, the caught TypeError in
  ExplorationMutationRule, the exception handling contracts of
  delivery_simulation.py) it is modelled explicitly, see the comments
  at those definitions.
-/

namespace DeliverySim

/-- Embedding of `point.py` `Point`: a 2D point with float coordinates. -/
structure Point where
  x : ℝ
  y : ℝ

/-- Embedding of `Point.distance_to`: Euclidean distance
`sqrt((self.x-other.x)**2 + (self.y-other.y)**2)`. -/
noncomputable def Point.distance_to (p other : Point) : ℝ :=
  Real.sqrt ((p.x - other.x) ^ 2 + (p.y - other.y) ^ 2)

/-- Embedding of `Point.__add__`. -/
def Point.add (p other : Point) : Point :=
  Point.mk (p.x + other.x) (p.y + other.y)

/-- Embedding of `Point.__sub__`. -/
def Point.sub (p other : Point) : Point :=
  Point.mk (p.x - other.x) (p.y - other.y)

/-- Embedding of `Point.__mul__` (scalar multiplication). -/
def Point.smul (p : Point) (scalar : ℝ) : Point :=
  Point.mk (p.x * scalar) (p.y * scalar)

/-- Request lifecycle statuses of `request.py` (the string field
`Request.status`). -/
inductive RStatus where
  | WAITING
  | ASSIGNED
  | PICKED
  | DELIVERED
  | EXPIRED
deriving DecidableEq

/-- Embedding of `request.py` `Request`.  A fresh request
(`Request.__init__`) has status WAITING, no assigned driver and
wait_time 0. -/
structure Request where
  id : ℤ
  pickup : Point
  dropoff : Point
  creation_time : ℤ
  status : RStatus
  assigned_driver_id : Option ℤ
  wait_time : ℤ

/-- Embedding of `Request.__init__` for a request fresh from the
generator or seed data. -/
def Request.make (id : ℤ) (pickup dropoff : Point) (creation_time : ℤ) : Request :=
  { id := id, pickup := pickup, dropoff := dropoff, creation_time := creation_time,
    status := .WAITING, assigned_driver_id := none, wait_time := 0 }

/-- Embedding of `Request.mark_assigned`: unconditionally sets status
ASSIGNED and stores the driver id.  The Python body has no status
guard; its try/except only covers the `int(driver_id)` conversion,
which cannot fail for an integer id. -/
def Request.mark_assigned (r : Request) (driver_id : ℤ) : Request :=
  { r with status := .ASSIGNED, assigned_driver_id := some driver_id }

/-- Embedding of `Request.mark_picked`: sets status PICKED and freezes
`wait_time = t - creation_time`. -/
def Request.mark_picked (r : Request) (t : ℤ) : Request :=
  { r with status := .PICKED, wait_time := t - r.creation_time }

/-- Embedding of `Request.mark_delivered`. -/
def Request.mark_delivered (r : Request) (t : ℤ) : Request :=
  { r with status := .DELIVERED, wait_time := t - r.creation_time }

/-- Embedding of `Request.mark_expired`. -/
def Request.mark_expired (r : Request) (t : ℤ) : Request :=
  { r with status := .EXPIRED, wait_time := t - r.creation_time }

/-- Embedding of `Request.update_wait`. -/
def Request.update_wait (r : Request) (current_time : ℤ) : Request :=
  { r with wait_time := current_time - r.creation_time }

/-- Driver statuses of `driver.py` (the string field `Driver.status`). -/
inductive DStatus where
  | IDLE
  | TO_PICKUP
  | TO_DROPOFF
deriving DecidableEq

/-- The shipped `DriverBehaviour` strategies, as a closed inductive
carrying each constructor's parameter:
`LazyBehaviour(min_wait_time)`, `GreedyDistanceBehaviour(max_distance)`,
`EarningMaxBehaviour(min_ratio)` (the last field is the stored
`min_ratio` threshold). -/
inductive Behaviour where
  | lazy (min_wait_time : ℤ)
  | greedyDistance (max_distance : ℝ)
  | earningMax (minRatioParam : ℝ)

/-- One entry of `Driver.history`: the dict appended by
`Driver.complete_dropoff` with keys `driver_id`, `request_id`,
`completion_time`, `earnings`, `total_distance`. -/
structure TripRecord where
  driver_id : ℤ
  request_id : ℤ
  completion_time : ℤ
  earnings : ℝ
  total_distance : ℝ

/-- The dictionary keys a mutation rule may look up on a history entry.
`served` is the key `PerformanceBasedMutation.maybe_mutate` reads;
`complete_dropoff` never writes it. -/
inductive TripKey where
  | driver_id
  | request_id
  | completion_time
  | earnings
  | total_distance
  | served

/-- Dictionary lookup `entry[key]` on a `complete_dropoff` history
entry, returned as `Option`: `none` models the `KeyError` Python
raises for a key the dict does not hold (in particular `served`). -/
def TripRecord.lookup (tr : TripRecord) : TripKey → Option ℝ
  | .driver_id => some (tr.driver_id : ℝ)
  | .request_id => some (tr.request_id : ℝ)
  | .completion_time => some (tr.completion_time : ℝ)
  | .earnings => some tr.earnings
  | .total_distance => some tr.total_distance
  | .served => none

/-- Embedding of `driver.py` `Driver`.  `current_request` holds the
index of the held request in the engine's `requests` arena (`none` =
Python `None`).  `behaviour` is total here: a driver whose behaviour
is Python `None` makes `tick()` raise an uncaught `AttributeError`
at `driver.behaviour.decide`, so such drivers are outside the
embedded engine runs. -/
structure Driver where
  id : ℤ
  position : Point
  speed : ℝ
  behaviour : Behaviour
  status : DStatus
  current_request : Option ℕ
  position_at_assignment : Option Point
  assigned_reward : ℝ
  history : List TripRecord

/-- Embedding of `driver.py` `ARRIVAL_EPSILON` (unused by the engine's
own arrival check in `_move_drivers_and_handle_events`, which compares
against the literal `1e-6`). -/
noncomputable def ARRIVAL_EPSILON : ℝ := 1 / 1000

/-- The engine's arrival threshold, the literal `1e-6` in
`DeliverySimulation._move_drivers_and_handle_events`. -/
noncomputable def engineArrivalEps : ℝ := 1 / 1000000

/-- Embedding of `Driver.assign_request` without its trailing
`request.mark_assigned(self.id)` call (the engine-level
`finalizeStep` pairs the two, because the request lives in the
engine's arena).  The second positional Python argument
`assignment_meta` and keyword `reward` are kept: when `reward` is
`None` and `assignment_meta` is a number (the compatibility branch
for call sites that pass the current simulation time there),
`assigned_reward` becomes `0.0`. -/
def Driver.assign_request_fields (d : Driver) (ri : ℕ)
    (assignment_meta : Option ℝ) (reward : Option ℝ) : Driver :=
  { d with
    position_at_assignment := some d.position
    current_request := some ri
    assigned_reward :=
      match reward, assignment_meta with
      | none, some _ => 0
      | none, none => 0
      | some rw, _ => rw
    status := .TO_PICKUP }

/-- Embedding of `Driver.target_point`: pickup while TO_PICKUP,
dropoff while TO_DROPOFF, `none` when idle or without a request.
The held request is resolved through the engine's `requests` arena;
an out-of-range index yields `none` (unreachable in engine runs,
where held indices are always valid). -/
def Driver.target_point (d : Driver) (requests : List Request) : Option Point :=
  match d.current_request with
  | none => none
  | some ri =>
    if d.status = .IDLE then none
    else
      match requests[ri]? with
      | none => none
      | some r =>
        match d.status with
        | .TO_PICKUP => some r.pickup
        | .TO_DROPOFF => some r.dropoff
        | .IDLE => none

/-- Embedding of `Driver.step`: move toward the current target at
`speed * dt`, snapping exactly onto the target when it is within
reach (`distance <= movement`). -/
noncomputable def Driver.step (d : Driver) (requests : List Request) (dt : ℝ) : Driver :=
  match d.target_point requests with
  | none => d
  | some destination =>
    let distance := d.position.distance_to destination
    let movement := d.speed * dt
    if distance ≤ movement then { d with position := destination }
    else
      let frac := movement / distance
      let direction := destination.sub d.position
      let travel := direction.smul frac
      { d with position := d.position.add travel }

/-- Embedding of `Driver.complete_pickup`: guarded by holding a request
while TO_PICKUP; switches to TO_DROPOFF (the held request is marked
PICKED at the engine level, see `pickupPhase`). -/
def Driver.complete_pickup_fields (d : Driver) : Driver :=
  { d with status := .TO_DROPOFF }

/-- Embedding of `offer.py` `Offer`.  Driver and request are identified
by their arena indices; `estimated_reward = none` is Python `None`. -/
structure Offer where
  driverIdx : ℕ
  requestIdx : ℕ
  estimated_travel_time : ℝ
  estimated_reward : Option ℝ

/-- Embedding of the three shipped `decide` methods
(`lazy_behaviour.py`, `greedy_distance_behaviour.py`,
`earning_max_behaviour.py`), dispatched on the driver's behaviour:
* Lazy: accept iff the driver is IDLE and `request.wait_time >= min_wait_time`;
* GreedyDistance: accept iff the pickup distance is strictly below `max_distance`;
* EarningMax: reject a `None` reward, reject `travel_time <= 0`, else
  accept iff `reward / travel_time >= min_ratio * (1 + 0.0005 * time)`. -/
noncomputable def behaviourDecide (d : Driver) (r : Request) (off : Offer) (time : ℤ) : Bool :=
  match d.behaviour with
  | .lazy min_wait_time =>
    decide (d.status = .IDLE) && decide (min_wait_time ≤ r.wait_time)
  | .greedyDistance max_distance =>
    if d.position.distance_to r.pickup < max_distance then true else false
  | .earningMax mr =>
    match off.estimated_reward with
    | none => false
    | some reward =>
      if off.estimated_travel_time ≤ 0 then false
      else
        let threshold := mr * (1 + 0.0005 * (time : ℝ))
        if threshold ≤ reward / off.estimated_travel_time then true else false

/-! ## Dispatch policies (`policies/global_greedy_policy.py`,
`policies/nearest_neighbor_policy.py`)

Both policies receive the engine's full driver list and the tick's
waiting requests, and return proposed pairs.  In the embedding a
proposal is a pair `(driver index into the engine's drivers list,
request index into the engine's requests arena)`; the waiting requests
are passed as `(arena index, request)` pairs in engine order. -/

/-- The cross-product candidate list of `GlobalGreedyPolicy.assign`:
for every IDLE driver (keeping its position `driver_index` in the
input list, as Python's `enumerate` does) and every given request, the
tuple `(distance, driver_index, request)` — the request here by its
arena index. -/
noncomputable def ggCombos (drivers : List Driver) (waiting : List (ℕ × Request)) :
    List (ℝ × ℕ × ℕ) :=
  ((drivers.enum.filter fun p => p.2.status = .IDLE).flatMap fun p =>
    waiting.map fun q => (p.2.position.distance_to q.2.pickup, p.1, q.1))

/-- Sort order of Python's `combos.sort()` on the tuples
`(distance, driver_index, driver, request)`: lexicographic on the two
comparable slots.  Two tuples equal in both slots make Python compare
the `Request` objects themselves, which raises `TypeError`; that case
is fenced off by `ggTie`. -/
def comboLE (a b : ℝ × ℕ × ℕ) : Prop :=
  a.1 < b.1 ∨ (a.1 = b.1 ∧ a.2.1 ≤ b.2.1)

instance : IsTotal (ℝ × ℕ × ℕ) comboLE := by
  constructor
  intro a b
  rcases lt_trichotomy a.1 b.1 with h | h | h
  · exact Or.inl (Or.inl h)
  · rcases le_total a.2.1 b.2.1 with h2 | h2
    · exact Or.inl (Or.inr ⟨h, h2⟩)
    · exact Or.inr (Or.inr ⟨h.symm, h2⟩)
  · exact Or.inr (Or.inl h)

instance : IsTrans (ℝ × ℕ × ℕ) comboLE := by
  constructor
  intro a b c hab hbc
  rcases hab with h1 | ⟨e1, l1⟩
  · rcases hbc with h2 | ⟨e2, _⟩
    · exact Or.inl (h1.trans h2)
    · exact Or.inl (e2 ▸ h1)
  · rcases hbc with h2 | ⟨e2, l2⟩
    · exact Or.inl (e1 ▸ h2)
    · exact Or.inr ⟨e1.trans e2, l1.trans l2⟩

/-- A duplicate `(distance, driver_index)` sort key among the
candidate tuples: `combos.sort()` then compares two distinct `Request`
objects with `<` and raises `TypeError` (two tuples with the same
driver index come from the same driver object, so comparison falls
through to the request slot). -/
def ggTie (l : List (ℝ × ℕ × ℕ)) : Prop :=
  ¬ l.Pairwise fun a b => ¬(a.1 = b.1 ∧ a.2.1 = b.2.1)

/-- The greedy sweep of `GlobalGreedyPolicy.assign`: walk the sorted
candidates, accept a pair whenever neither its driver nor its request
was already used, remembering both. -/
def ggSweep : List (ℝ × ℕ × ℕ) → List ℕ → List ℕ → List (ℕ × ℕ)
  | [], _, _ => []
  | (_, di, ri) :: rest, usedD, usedR =>
    if di ∈ usedD ∨ ri ∈ usedR then ggSweep rest usedD usedR
    else (di, ri) :: ggSweep rest (di :: usedD) (ri :: usedR)

open Classical in
/-- Embedding of `GlobalGreedyPolicy.assign`.  `none` models the
uncaught `TypeError` out of `combos.sort()` on a duplicate
`(distance, driver_index)` key (the engine's `_propose_assignments`
catches it and falls back to no proposals). -/
noncomputable def globalGreedyAssign (drivers : List Driver)
    (waiting : List (ℕ × Request)) : Option (List (ℕ × ℕ)) :=
  let combos := ggCombos drivers waiting
  if ggTie combos then none
  else some (ggSweep (combos.insertionSort comboLE) [] [])

/-- One comparison of the inner scan of `NearestNeighborPolicy.assign`:
`if distance < best_distance` replaces the best candidate; the very
first candidate always beats the initial `best_distance = inf`
(distances are finite), modelled by the `none` starting accumulator. -/
noncomputable def nnPick (best : Option (ℝ × ℕ × ℕ)) (c : ℝ × ℕ × ℕ) :
    Option (ℝ × ℕ × ℕ) :=
  match best with
  | none => some c
  | some b => if c.1 < b.1 then some c else some b

/-- The inner double scan of `NearestNeighborPolicy.assign`: scan order
is drivers outer, requests inner, strict improvement only. -/
noncomputable def nnScan (idle : List (ℕ × Driver)) (waiting : List (ℕ × Request)) :
    Option (ℝ × ℕ × ℕ) :=
  (idle.flatMap fun p =>
      waiting.map fun q => (p.2.position.distance_to q.2.pickup, p.1, q.1)).foldl
    nnPick none

/-- The `while idle_drivers and waiting_requests` loop of
`NearestNeighborPolicy.assign`, with explicit fuel: every iteration
removes the selected driver and request from the candidate lists, so
the iteration count is bounded by the initial number of idle drivers,
which is what `nearestNeighborAssign` passes as fuel. -/
noncomputable def nnLoop : ℕ → List (ℕ × Driver) → List (ℕ × Request) → List (ℕ × ℕ)
  | 0, _, _ => []
  | fuel + 1, idle, waiting =>
    if idle.isEmpty || waiting.isEmpty then []
    else
      match nnScan idle waiting with
      | none => []
      | some (_, di, ri) =>
        (di, ri) ::
          nnLoop fuel (idle.eraseP fun p => p.1 == di) (waiting.eraseP fun q => q.1 == ri)

/-- Embedding of `NearestNeighborPolicy.assign`. -/
noncomputable def nearestNeighborAssign (drivers : List Driver)
    (waiting : List (ℕ × Request)) : List (ℕ × ℕ) :=
  nnLoop drivers.length (drivers.enum.filter fun p => p.2.status = .IDLE) waiting

/-- The two shipped dispatch policies. -/
inductive Policy where
  | nearestNeighbor
  | globalGreedy

/-- Dispatch on the configured policy.  `none` = the policy call raised
(only the global-greedy sort can, see `globalGreedyAssign`). -/
noncomputable def policyAssign : Policy → List Driver → List (ℕ × Request) → ℤ →
    Option (List (ℕ × ℕ))
  | .nearestNeighbor, ds, ws, _ => some (nearestNeighborAssign ds ws)
  | .globalGreedy, ds, ws, _ => globalGreedyAssign ds ws

/-! ## Mutation rules (`mutationrule/exploration.py`,
`mutationrule/performance.py`) -/

/-- The behaviour update of `ExplorationMutationRule.maybe_mutate`,
given the stored probability, the `random.random()` draw and the time:
trigger when `roll < min(1.0, max(0.0, probability * (1 + time*0.0005)))`.
On trigger a Lazy driver becomes `GreedyDistanceBehaviour(max_distance=10)`;
for any other behaviour the code runs `LazyBehaviour(max_idle=5)`,
which raises `TypeError` (`LazyBehaviour.__init__` has no `max_idle`
parameter), caught by the rule's own `except (AttributeError,
TypeError, ValueError)` — so the behaviour is left unchanged. -/
noncomputable def explorationStep (probability roll : ℝ) (time : ℤ) (b : Behaviour) :
    Behaviour :=
  let effective_probability := min 1 (max 0 (probability * (1 + (time : ℝ) * 0.0005)))
  if roll < effective_probability then
    match b with
    | .lazy _ => .greedyDistance 10
    | _ => b
  else b

/-- Embedding of `PerformanceBasedMutation.maybe_mutate`: no-op when
the history holds fewer than `N` entries or `N <= 0`; otherwise it
reads `entry["served"]` from each of the last `N` entries, skipping
entries without that key (`TripRecord.lookup` yields `none`; every
`complete_dropoff` record lacks it), and with no readable entries it
returns without touching the driver.  When values are collected and
their average is below the threshold, the behaviour is forced to
`GreedyDistanceBehaviour(max_distance=10)`. -/
noncomputable def performanceStep (threshold : ℝ) (N : ℤ) (d : Driver) : Driver :=
  let history_len := d.history.length
  if (history_len : ℤ) < N ∨ N ≤ 0 then d
  else
    let served_history := d.history.drop (history_len - N.toNat)
    let served_counts := served_history.filterMap fun entry => entry.lookup .served
    if served_counts.isEmpty then d
    else if served_counts.sum / (served_counts.length : ℝ) < threshold then
      { d with behaviour := .greedyDistance 10 }
    else d

/-- The two shipped mutation rules with their stored parameters
(`ExplorationMutationRule.__init__` clamps its probability into
`[0, 1]`, see `mkExplorationRule`). -/
inductive MRule where
  | exploration (probability : ℝ)
  | performance (threshold : ℝ) (N : ℤ)

/-- Embedding of `ExplorationMutationRule.__init__`:
`self.probability = min(1.0, max(0.0, value))`. -/
noncomputable def mkExplorationRule (probability : ℝ) : MRule :=
  .exploration (min 1 (max 0 probability))

/-- Apply one mutation rule to one driver; the exploration rule
consumes one `random.random()` draw, supplied here as `roll`. -/
noncomputable def applyRule (rule : MRule) (roll : ℝ) (time : ℤ) (d : Driver) : Driver :=
  match rule with
  | .exploration p => { d with behaviour := explorationStep p roll time d.behaviour }
  | .performance th n => performanceStep th n d

/-! ## The engine (`delivery_simulation.py` `DeliverySimulation`)

The engine state carries the clock, the timeout, the two entity arenas
and the four running counters.  The `metrics_log` is an append-only
record never read back by the engine, and the strategy objects live in
`SimConfig`; neither is part of the mutable state the claims are
about. -/

structure SimState where
  time : ℤ
  timeout : ℤ
  drivers : List Driver
  requests : List Request
  servedCount : ℕ
  expiredCount : ℕ
  totalWaitTime : ℤ
  completedDeliveries : ℕ

/-- The engine's collaborators, fixed at construction: the dispatch
policy, the request generator (`maybe_generate` as a function of the
tick time; the shipped generator returns fresh WAITING requests), the
mutation rules, and the oracle supplying every `random.random()` draw
a mutation rule makes (indexed by tick time, driver position in the
drivers list, and rule position in the rules list). -/
structure SimConfig where
  policy : Policy
  gen : ℤ → List Request
  rules : List MRule
  rolls : ℤ → ℕ → ℕ → ℝ

/-- Stage 1, `_generate_new_requests`: append the generator's output. -/
def generatePhase (cfg : SimConfig) (s : SimState) : SimState :=
  { s with requests := s.requests ++ cfg.gen s.time }

/-- The per-request action of `_update_waiting_time`: a WAITING
request gets `update_wait(time)` and, when its new wait exceeds the
timeout, `mark_expired(time)`; any other request is untouched. -/
def expireCheck (time timeout : ℤ) (r : Request) : Request :=
  if r.status = .WAITING then
    let r1 := r.update_wait time
    if timeout < r1.wait_time then r1.mark_expired time else r1
  else r

/-- A request `_update_waiting_time` expires this tick. -/
def newlyExpired (time timeout : ℤ) (r : Request) : Bool :=
  decide (r.status = .WAITING) && decide (timeout < time - r.creation_time)

/-- A request `_update_waiting_time` keeps in the tick's waiting list. -/
def stillWaiting (time timeout : ℤ) (r : Request) : Bool :=
  decide (r.status = .WAITING) && !decide (timeout < time - r.creation_time)

/-- Stage 2, `_update_waiting_time`: update every WAITING request's
wait, expire the overdue ones (counting them into `expired_count`),
and return the indices of the still-waiting requests in arena order. -/
def updateWaitingPhase (s : SimState) : SimState × List ℕ :=
  ({ s with
      requests := s.requests.map (expireCheck s.time s.timeout)
      expiredCount :=
        s.expiredCount + (s.requests.filter (newlyExpired s.time s.timeout)).length },
    (List.range s.requests.length).filter fun i =>
      match s.requests[i]? with
      | some r => stillWaiting s.time s.timeout r
      | none => false)

/-- The `(arena index, request)` pairs handed to the dispatch policy
for the tick's waiting indices. -/
def waitingPairs (s : SimState) (idx : List ℕ) : List (ℕ × Request) :=
  idx.filterMap fun i => (s.requests[i]?).map fun r => (i, r)

/-- Stage 3, `_propose_assignments`: ask the configured policy; a
raised `TypeError`/`AttributeError`/`ValueError` (modelled by `none`
from `policyAssign`) is caught and yields no proposals. -/
noncomputable def proposePhase (pol : Policy) (s : SimState) (waiting : List ℕ) :
    List (ℕ × ℕ) :=
  (policyAssign pol s.drivers (waitingPairs s waiting) s.time).getD []

/-- The offer built for one proposed pair in `_process_offers` and the
driver's decision on it: travel time is pickup distance over
`max(speed, 0.1)`, the estimated reward is
`15.0 + 1.5 * (pickup distance + pickup-to-dropoff distance)`.
A pair whose driver or request index does not resolve is skipped
(`false`), like the caught offer-creation error in Python. -/
noncomputable def offerDecision (s : SimState) (p : ℕ × ℕ) : Bool :=
  match s.drivers[p.1]?, s.requests[p.2]? with
  | some d, some r =>
    let distance_to_pickup := d.position.distance_to r.pickup
    let estimated_travel_time := distance_to_pickup / max d.speed 0.1
    let total_distance := distance_to_pickup + r.pickup.distance_to r.dropoff
    let estimated_reward := 15 + 1.5 * total_distance
    behaviourDecide d r
      (Offer.mk p.1 p.2 estimated_travel_time (some estimated_reward)) s.time
  | _, _ => false

/-- Stage 4, `_process_offers`: keep the proposals the drivers accept,
in proposal order.  No state is mutated here. -/
noncomputable def processOffers (s : SimState) (proposals : List (ℕ × ℕ)) :
    List (ℕ × ℕ) :=
  proposals.filter (offerDecision s)

/-- One iteration of `_finalize_assigments`: skip the pair when its
driver or request was already consumed this tick or the request is
already ASSIGNED; otherwise run
`driver.assign_request(request, self.time)` — the driver-side field
updates (with the current time as `assignment_meta` and no reward)
plus `request.mark_assigned(driver.id)`. -/
def finalizeStep (acc : SimState × List ℕ × List ℕ) (p : ℕ × ℕ) :
    SimState × List ℕ × List ℕ :=
  let st := acc.1
  let usedD := acc.2.1
  let usedR := acc.2.2
  match st.drivers[p.1]?, st.requests[p.2]? with
  | some d, some r =>
    if p.1 ∈ usedD ∨ p.2 ∈ usedR ∨ r.status = .ASSIGNED then acc
    else
      ({ st with
          drivers :=
            st.drivers.set p.1 (d.assign_request_fields p.2 (some (st.time : ℝ)) none)
          requests := st.requests.set p.2 (r.mark_assigned d.id) },
        p.1 :: usedD, p.2 :: usedR)
  | _, _ => acc

/-- Stage 5, `_finalize_assigments` over the accepted list. -/
def finalizeAssignments (s : SimState) (accepted : List (ℕ × ℕ)) : SimState :=
  (accepted.foldl finalizeStep (s, [], [])).1

/-- The pickup-arrival check in `_move_drivers_and_handle_events`: a
driver holding a request while TO_PICKUP within `1e-6` of the pickup
completes the pickup (`complete_pickup`: driver switches to
TO_DROPOFF, the request is marked PICKED). -/
noncomputable def pickupPhase (time : ℤ) (d : Driver) (requests : List Request) :
    Driver × List Request :=
  match d.current_request with
  | none => (d, requests)
  | some ri =>
    if d.status = .TO_PICKUP then
      match requests[ri]? with
      | none => (d, requests)
      | some r =>
        if d.position.distance_to r.pickup < engineArrivalEps then
          (d.complete_pickup_fields, requests.set ri (r.mark_picked time))
        else (d, requests)
    else (d, requests)

/-- Embedding of `Driver.complete_dropoff` (driver and arena part):
guarded by holding a request while TO_DROPOFF with a recorded
assignment position; marks the request DELIVERED, appends the
TripRecord with `earnings = assigned_reward` and
`total_distance = dist(position_at_assignment, pickup) + dist(pickup,
dropoff)`, then resets the driver to IDLE. -/
noncomputable def completeDropoff (time : ℤ) (d : Driver) (requests : List Request) :
    Driver × List Request :=
  match d.current_request with
  | none => (d, requests)
  | some ri =>
    match d.position_at_assignment with
    | none => (d, requests)
    | some pa =>
      if d.status = .TO_DROPOFF then
        match requests[ri]? with
        | none => (d, requests)
        | some r =>
          let total_distance :=
            pa.distance_to r.pickup + r.pickup.distance_to r.dropoff
          ({ d with
              history :=
                d.history ++
                  [TripRecord.mk d.id r.id time d.assigned_reward total_distance]
              current_request := none
              status := .IDLE
              position_at_assignment := none
              assigned_reward := 0 },
            requests.set ri (r.mark_delivered time))
      else (d, requests)

/-- The dropoff-arrival check in `_move_drivers_and_handle_events`:
when a driver holding a request while TO_DROPOFF is within `1e-6` of
the dropoff, the engine calls `complete_dropoff` and then — for the
captured request, unconditionally on whether `complete_dropoff`'s own
guard fired — bumps the served/completed counters; the returned index
(`some ri`) reports that counter bump and which request's `wait_time`
is added to `total_wait_time`. -/
noncomputable def dropoffPhase (time : ℤ) (d : Driver) (requests : List Request) :
    Driver × List Request × Option ℕ :=
  match d.current_request with
  | none => (d, requests, none)
  | some ri =>
    if d.status = .TO_DROPOFF then
      match requests[ri]? with
      | none => (d, requests, none)
      | some r =>
        if d.position.distance_to r.dropoff < engineArrivalEps then
          let pr := completeDropoff time d requests
          (pr.1, pr.2, some ri)
        else (d, requests, none)
    else (d, requests, none)

/-- One driver's turn in `_move_drivers_and_handle_events`:
`step(1.0)`, then the pickup check, then the dropoff check (both run
in the same tick, so a pickup completed this tick can immediately
become a completed dropoff when pickup and dropoff coincide). -/
noncomputable def moveOne (s : SimState) (di : ℕ) : SimState :=
  match s.drivers[di]? with
  | none => s
  | some d0 =>
    let d1 := d0.step s.requests 1
    let p1 := pickupPhase s.time d1 s.requests
    let p2 := dropoffPhase s.time p1.1 p1.2
    match p2.2.2 with
    | none =>
      { s with drivers := s.drivers.set di p2.1, requests := p2.2.1 }
    | some ri =>
      { s with
        drivers := s.drivers.set di p2.1
        requests := p2.2.1
        servedCount := s.servedCount + 1
        completedDeliveries := s.completedDeliveries + 1
        totalWaitTime :=
          s.totalWaitTime + (match p2.2.1[ri]? with | some r => r.wait_time | none => 0) }

/-- Stage 6, `_move_drivers_and_handle_events`, over every driver in
list order. -/
noncomputable def movePhase (s : SimState) : SimState :=
  (List.range s.drivers.length).foldl moveOne s

/-- Stage 7, the mutation loop in `tick`: apply every configured rule
to every driver, in order; a rule only ever rewrites `behaviour`. -/
noncomputable def mutatePhase (rules : List MRule) (rolls : ℕ → ℕ → ℝ)
    (time : ℤ) (drivers : List Driver) : List Driver :=
  drivers.enum.map fun p =>
    rules.enum.foldl (fun d q => applyRule q.2 (rolls p.1 q.1) time d) p.2

/-- Embedding of `DeliverySimulation.tick`: the seven pipeline stages
followed by the clock increment (the appended metrics entry is
derived data, not engine state). -/
noncomputable def tick (cfg : SimConfig) (s : SimState) : SimState :=
  let s1 := generatePhase cfg s
  let u := updateWaitingPhase s1
  let proposals := proposePhase cfg.policy u.1 u.2
  let accepted := processOffers u.1 proposals
  let s5 := finalizeAssignments u.1 accepted
  let s6 := movePhase s5
  let s7 := { s6 with drivers := mutatePhase cfg.rules (cfg.rolls s6.time) s6.time s6.drivers }
  { s7 with time := s7.time + 1 }

/-- Run `tick` a given number of times. -/
noncomputable def tickN (cfg : SimConfig) : ℕ → SimState → SimState
  | 0, s => s
  | n + 1, s => tickN cfg n (tick cfg s)

/-! ## Exception flow at the strategy call sites

`tick()` wraps each pluggable-strategy call in a `try/except` over a
fixed tuple of exception classes.  To settle the error-handling claim
the call-site handlers are modelled explicitly over an exception type
and `Except`-valued call results: a strategy call either returns a
value or raises some exception class. -/

/-- Python exception classes relevant to the engine's handlers. -/
inductive PyExc where
  | attributeError
  | typeError
  | valueError
  | zeroDivisionError
  | keyError
  | runtimeError
  | otherExc
deriving DecidableEq

/-- The classes `_propose_assignments` catches around
`dispatch_policy.assign`: `(AttributeError, TypeError, ValueError)`. -/
def policyCallCaught : PyExc → Bool
  | .attributeError => true
  | .typeError => true
  | .valueError => true
  | _ => false

/-- The classes `_process_offers` catches around
`driver.behaviour.decide`: `(TypeError, ValueError)`. -/
def decideCallCaught : PyExc → Bool
  | .typeError => true
  | .valueError => true
  | _ => false

/-- The classes the mutation loop in `tick` catches around
`rule.maybe_mutate`: `(AttributeError, TypeError, ValueError)`. -/
def mutationCallCaught : PyExc → Bool
  | .attributeError => true
  | .typeError => true
  | .valueError => true
  | _ => false

/-- The `_propose_assignments` call-site handler on the policy call's
outcome: a `None` result and a caught exception both become the empty
proposal list; any other exception escapes `tick()`. -/
def proposeCatch (res : Except PyExc (Option (List (ℕ × ℕ)))) :
    Except PyExc (List (ℕ × ℕ)) :=
  match res with
  | .ok none => .ok []
  | .ok (some ps) => .ok ps
  | .error e => if policyCallCaught e then .ok [] else .error e

/-- The `_process_offers` call-site handler on one `decide` call's
outcome: a caught exception means the offer is rejected
(`decision = False`); any other exception escapes `tick()`. -/
def decideCatch (res : Except PyExc Bool) : Except PyExc Bool :=
  match res with
  | .ok b => .ok b
  | .error e => if decideCallCaught e then .ok false else .error e

/-- The mutation-loop call-site handler on one `maybe_mutate` call's
outcome for driver `d`: a caught exception leaves the driver as it
was; any other exception escapes `tick()`.  (The shipped rules assign
`driver.behaviour` at most once, at the end, so "as it was" is exact
for them.) -/
def mutateCatch (d : Driver) (res : Except PyExc Driver) : Except PyExc Driver :=
  match res with
  | .ok d2 => .ok d2
  | .error e => if mutationCallCaught e then .ok d else .error e

/-! ## The claim's version of GlobalGreedyPolicy, for comparison

Modelled from the spec's words (claim C8), NOT from the source: sort
key `(distance, driver_id, request_id)` with explicit tie-breaks on
the two entity ids.  Everything else (cross product over IDLE drivers,
greedy sweep) follows the same scheme as the source policy, so any
behavioural difference is the sort key's. -/

/-- Lexicographic order on the claimed `(distance, driver_id,
request_id)` sort key. -/
def comboKeyLEC (a b : ℝ × ℤ × ℤ) : Prop :=
  a.1 < b.1 ∨ (a.1 = b.1 ∧ (a.2.1 < b.2.1 ∨ (a.2.1 = b.2.1 ∧ a.2.2 ≤ b.2.2)))

/-- `comboKeyLEC` lifted to candidates carrying their index pair. -/
def comboLEC (a b : (ℝ × ℤ × ℤ) × ℕ × ℕ) : Prop :=
  comboKeyLEC a.1 b.1

instance : IsTotal ((ℝ × ℤ × ℤ) × ℕ × ℕ) comboLEC := by
  constructor
  intro a b
  rcases lt_trichotomy a.1.1 b.1.1 with h | h | h
  · exact Or.inl (Or.inl h)
  · rcases lt_trichotomy a.1.2.1 b.1.2.1 with h2 | h2 | h2
    · exact Or.inl (Or.inr ⟨h, Or.inl h2⟩)
    · rcases le_total a.1.2.2 b.1.2.2 with h3 | h3
      · exact Or.inl (Or.inr ⟨h, Or.inr ⟨h2, h3⟩⟩)
      · exact Or.inr (Or.inr ⟨h.symm, Or.inr ⟨h2.symm, h3⟩⟩)
    · exact Or.inr (Or.inr ⟨h.symm, Or.inl h2⟩)
  · exact Or.inr (Or.inl h)

instance : IsTrans ((ℝ × ℤ × ℤ) × ℕ × ℕ) comboLEC := by
  constructor
  intro a b c hab hbc
  rcases hab with h1 | ⟨e1, h1⟩
  · rcases hbc with h2 | ⟨e2, _⟩
    · exact Or.inl (h1.trans h2)
    · exact Or.inl (e2 ▸ h1)
  · rcases hbc with h2 | ⟨e2, h2⟩
    · exact Or.inl (e1 ▸ h2)
    · refine Or.inr ⟨e1.trans e2, ?_⟩
      rcases h1 with h1 | ⟨f1, h1⟩
      · rcases h2 with h2 | ⟨f2, _⟩
        · exact Or.inl (h1.trans h2)
        · exact Or.inl (f2 ▸ h1)
      · rcases h2 with h2 | ⟨f2, h2⟩
        · exact Or.inl (f1 ▸ h2)
        · exact Or.inr ⟨f1.trans f2, h1.trans h2⟩

/-- Greedy sweep over the claimed candidates. -/
def ggSweepClaimed : List ((ℝ × ℤ × ℤ) × ℕ × ℕ) → List ℕ → List ℕ → List (ℕ × ℕ)
  | [], _, _ => []
  | (_, di, ri) :: rest, usedD, usedR =>
    if di ∈ usedD ∨ ri ∈ usedR then ggSweepClaimed rest usedD usedR
    else (di, ri) :: ggSweepClaimed rest (di :: usedD) (ri :: usedR)

open Classical in
/-- The dispatch algorithm claim C8 describes: full cross product of
IDLE drivers and all given requests, sorted ascending by
`(distance, driver_id, request_id)` — a total order needing no
tie-break beyond the ids — then the greedy sweep. -/
noncomputable def globalGreedyAssignClaimed (drivers : List Driver)
    (waiting : List (ℕ × Request)) : List (ℕ × ℕ) :=
  let combos :=
    ((drivers.enum.filter fun p => p.2.status = .IDLE).flatMap fun p =>
      waiting.map fun q =>
        ((p.2.position.distance_to q.2.pickup, p.2.id, q.2.id), p.1, q.1))
  ggSweepClaimed (combos.insertionSort comboLEC) [] []

/-! ## Invariants and well-formedness predicates -/

/-- The engine's structural well-formedness: every held request index
resolves to a request that is ASSIGNED or PICKED and carries the
holder's id, a holding driver is never IDLE, and each request has at
most one holder.  This is the inductive invariant behind the
no-double-assignment claim. -/
def WF (s : SimState) : Prop :=
  ∀ (di : ℕ) (d : Driver) (ri : ℕ),
    s.drivers[di]? = some d → d.current_request = some ri →
    d.status ≠ .IDLE ∧
    (∃ r, s.requests[ri]? = some r ∧
      (r.status = .ASSIGNED ∨ r.status = .PICKED) ∧
      r.assigned_driver_id = some d.id) ∧
    ∀ (dj : ℕ) (d2 : Driver),
      s.drivers[dj]? = some d2 → d2.current_request = some ri → dj = di

/-- The claim's well-formed initial state: every driver IDLE with no
current request, every request WAITING. -/
def InitOK (s : SimState) : Prop :=
  (∀ d ∈ s.drivers, d.status = .IDLE ∧ d.current_request = none) ∧
  ∀ r ∈ s.requests, r.status = .WAITING

/-- The no-double-assignment property as the claim states it: no
request is referenced by two drivers, a driver references at most one
request, and a held request's `assigned_driver_id` is its unique
holder's id. -/
def NoDouble (s : SimState) : Prop :=
  (∀ (di dj : ℕ) (d d2 : Driver) (ri : ℕ),
    s.drivers[di]? = some d → s.drivers[dj]? = some d2 →
    d.current_request = some ri → d2.current_request = some ri → di = dj) ∧
  (∀ (di : ℕ) (d : Driver) (ri rj : ℕ), s.drivers[di]? = some d →
    d.current_request = some ri → d.current_request = some rj → ri = rj) ∧
  ∀ (di : ℕ) (d : Driver) (ri : ℕ),
    s.drivers[di]? = some d → d.current_request = some ri →
    ∃ r, s.requests[ri]? = some r ∧ r.assigned_driver_id = some d.id

/-- Proposal-list sanity handed from stage 3/4 to stage 5: pairwise
distinct drivers and requests, every driver IDLE, every request index
in the tick's waiting list. -/
def GoodProposals (s : SimState) (waiting : List ℕ) (ps : List (ℕ × ℕ)) : Prop :=
  ps.Pairwise (fun a b => a.1 ≠ b.1 ∧ a.2 ≠ b.2) ∧
  ∀ p ∈ ps, (∃ d, s.drivers[p.1]? = some d ∧ d.status = .IDLE) ∧ p.2 ∈ waiting

/-- All engine-visible rewards are zero: every driver's
`assigned_reward` is 0 and every trip record's earnings are 0. -/
def ZeroEarnings (s : SimState) : Prop :=
  ∀ (di : ℕ) (d : Driver), s.drivers[di]? = some d →
    d.assigned_reward = 0 ∧ ∀ tr ∈ d.history, tr.earnings = 0

/-- Request `k` is expired by the waiting-time update of the tick run
from state `s` (the check runs after generation, on the pre-increment
clock `s.time`). -/
def tickExpiresIdx (cfg : SimConfig) (s : SimState) (k : ℕ) : Prop :=
  ∃ r, (generatePhase cfg s).requests[k]? = some r ∧
    newlyExpired s.time s.timeout r = true

/-! ## Concrete inputs used by counterexamples and witnesses -/

/-- The reward stage 4 (`_process_offers`) computes for one proposed
pair — the "policy-supplied reward" of claim C3 — restated as its own
view so the claim can compare it with what stage 5 stores:
`15.0 + 1.5 * (pickup distance + pickup-to-dropoff distance)`. -/
noncomputable def offerRewardFor (s : SimState) (di ri : ℕ) : Option ℝ :=
  match s.drivers[di]?, s.requests[ri]? with
  | some d, some r =>
    some (15 + 1.5 * (d.position.distance_to r.pickup +
      r.pickup.distance_to r.dropoff))
  | _, _ => none

/-- An IDLE driver with id 5 at the origin (list position 0 in the
global-greedy counterexample). -/
def ggDriverA : Driver :=
  { id := 5, position := Point.mk 0 0, speed := 1, behaviour := .lazy 0,
    status := .IDLE, current_request := none, position_at_assignment := none,
    assigned_reward := 0, history := [] }

/-- An IDLE driver with the smaller id 1 at the same origin (list
position 1). -/
def ggDriverB : Driver :=
  { ggDriverA with id := 1 }

/-- A WAITING request at pickup (1,0), equidistant from both drivers. -/
def ggReq : Request :=
  { id := 1, pickup := Point.mk 1 0, dropoff := Point.mk 2 0, creation_time := 0,
    status := .WAITING, assigned_driver_id := none, wait_time := 0 }

/-- The waiting list handed to the policies in the C8 counterexample. -/
def ggWaiting : List (ℕ × Request) := [(0, ggReq)]

/-- One IDLE driver at the origin for the finalize/reward scenario. -/
def finDriver : Driver :=
  { id := 0, position := Point.mk 0 0, speed := 1, behaviour := .lazy 0,
    status := .IDLE, current_request := none, position_at_assignment := none,
    assigned_reward := 0, history := [] }

/-- A WAITING request with pickup (3,4) (distance 5 from the driver)
and dropoff at the pickup. -/
def finReq : Request :=
  { id := 0, pickup := Point.mk 3 4, dropoff := Point.mk 3 4, creation_time := 0,
    status := .WAITING, assigned_driver_id := none, wait_time := 0 }

/-- Engine state at time 0 with that one driver and request. -/
def finState : SimState :=
  { time := 0, timeout := 100, drivers := [finDriver], requests := [finReq],
    servedCount := 0, expiredCount := 0, totalWaitTime := 0,
    completedDeliveries := 0 }

/-- A configuration whose generator never produces requests and with
no mutation rules, used by the concrete-run witnesses. -/
noncomputable def emptyCfg : SimConfig :=
  { policy := .nearestNeighbor, gen := fun _ => [], rules := [],
    rolls := fun _ _ _ => 0 }

/-- A WAITING request created at time 0, for the expiry witness. -/
def expReq : Request :=
  { id := 0, pickup := Point.mk 0 0, dropoff := Point.mk 1 0, creation_time := 0,
    status := .WAITING, assigned_driver_id := none, wait_time := 0 }

/-- A driverless engine holding only `expReq`, timeout 1: with no
driver ever available the request must expire at the first tick whose
clock exceeds the timeout (time 2). -/
def expState : SimState :=
  { time := 0, timeout := 1, drivers := [], requests := [expReq],
    servedCount := 0, expiredCount := 0, totalWaitTime := 0,
    completedDeliveries := 0 }

/-- A request already DELIVERED (for the `mark_assigned` guard claim). -/
def reqDelivered : Request :=
  { id := 9, pickup := Point.mk 0 0, dropoff := Point.mk 1 1, creation_time := 0,
    status := .DELIVERED, assigned_driver_id := some 3, wait_time := 4 }

/-- A trip record as `complete_dropoff` writes it (zero earnings). -/
def dropoffRecord : TripRecord :=
  { driver_id := 1, request_id := 2, completion_time := 3,
    earnings := 0, total_distance := 5 }

/-- A driver with one completed trip whose earnings (0) lie below any
positive threshold, for the performance-mutation claim. -/
def driverOneTrip : Driver :=
  { id := 1, position := Point.mk 0 0, speed := 1, behaviour := .lazy 5,
    status := .IDLE, current_request := none, position_at_assignment := none,
    assigned_reward := 0, history := [dropoffRecord] }

end DeliverySim

namespace DeliverySim

/-! ## Theorems -/

/-- Claim C2 counterexample: `mark_assigned` on a DELIVERED request
does not leave it unchanged and signals nothing to the caller — it
silently overwrites the terminal status with ASSIGNED and installs the
new driver id. -/
theorem mark_assigned_overwrites_delivered :
    reqDelivered.status = .DELIVERED ∧
    reqDelivered.mark_assigned 7 ≠ reqDelivered ∧
    (reqDelivered.mark_assigned 7).status = .ASSIGNED ∧
    (reqDelivered.mark_assigned 7).assigned_driver_id = some 7 := by
  refine ⟨rfl, ?_, rfl, rfl⟩
  intro h
  have : (reqDelivered.mark_assigned 7).status = reqDelivered.status := by rw [h]
  simp [Request.mark_assigned, reqDelivered] at this

/-- Claim C2 (amended): `Request.mark_assigned` performs no status
check at all.  For every request, whatever its current status, it
sets status ASSIGNED and `assigned_driver_id` to the given driver,
leaving every other field unchanged, and reports nothing to the
caller. -/
theorem mark_assigned_unconditional (r : Request) (driver_id : ℤ) :
    (r.mark_assigned driver_id).status = .ASSIGNED ∧
    (r.mark_assigned driver_id).assigned_driver_id = some driver_id ∧
    (r.mark_assigned driver_id).id = r.id ∧
    (r.mark_assigned driver_id).pickup = r.pickup ∧
    (r.mark_assigned driver_id).dropoff = r.dropoff ∧
    (r.mark_assigned driver_id).creation_time = r.creation_time ∧
    (r.mark_assigned driver_id).wait_time = r.wait_time :=
  ⟨rfl, rfl, rfl, rfl, rfl, rfl, rfl⟩

/-- Looking up the `served` key collects nothing from
`complete_dropoff` history entries. -/
theorem lookup_served_filterMap_nil (l : List TripRecord) :
    (l.filterMap fun entry => entry.lookup .served) = [] := by
  induction l with
  | nil => rfl
  | cons hd tl ih => simp [List.filterMap, TripRecord.lookup, ih]

/-- The performance rule never changes a driver whose history consists
of `complete_dropoff` records. -/
theorem performanceStep_id (threshold : ℝ) (N : ℤ) (d : Driver) :
    performanceStep threshold N d = d := by
  unfold performanceStep
  simp [lookup_served_filterMap_nil]

/-- Claim C5 counterexample: a driver with `N = 1` trip record from
`complete_dropoff` whose earnings average (0) is far below the
threshold 100 keeps its Lazy behaviour — the rule does not switch it
to `GreedyDistanceBehaviour(10)` as the claim predicts, because it
reads the absent `served` key, not `earnings`. -/
theorem performance_mutation_ignores_earnings :
    driverOneTrip.history.length = 1 ∧
    dropoffRecord.earnings < 100 ∧
    (performanceStep 100 1 driverOneTrip).behaviour = .lazy 5 ∧
    Behaviour.lazy 5 ≠ .greedyDistance 10 := by
  refine ⟨rfl, by norm_num [dropoffRecord], ?_, by intro h; exact Behaviour.noConfusion h⟩
  rw [performanceStep_id]
  rfl

/-- Claim C5 (amended): `PerformanceBasedMutation.maybe_mutate` is a
no-op on every driver whose history was produced by
`complete_dropoff` — with fewer than `N` records it returns before
inspecting anything, and with `N` or more it reads `entry["served"]`
from each windowed record, a key `complete_dropoff` records do not
carry, so no value is collected, no average is computed, and the
behaviour is never replaced. -/
theorem performance_mutation_noop_on_dropoff_records
    (threshold : ℝ) (N : ℤ) (d : Driver) :
    (d.history.length < N.toNat → performanceStep threshold N d = d) ∧
    performanceStep threshold N d = d :=
  ⟨fun _ => performanceStep_id threshold N d, performanceStep_id threshold N d⟩

/-- Claim C7 counterexample: a behaviour `decide` that raises
`AttributeError` is not caught by `_process_offers` (its handler
catches only `TypeError` and `ValueError`), and a dispatch policy
raising `ZeroDivisionError` is not caught by `_propose_assignments` —
in both cases the exception escapes and the tick does not complete,
against the claim that any strategy exception is caught at the call
site. -/
theorem strategy_exception_not_all_caught :
    decideCatch (.error .attributeError) = .error .attributeError ∧
    proposeCatch (.error .zeroDivisionError) = .error .zeroDivisionError ∧
    mutateCatch driverOneTrip (.error .keyError) = .error .keyError := by
  exact ⟨rfl, rfl, rfl⟩

/-- Claim C7 (amended): each strategy call site catches a fixed tuple
of exception classes and turns them into "no effect" — an empty
proposal list for `dispatch_policy.assign` under
`AttributeError`/`TypeError`/`ValueError`, a rejected offer for
`behaviour.decide` under `TypeError`/`ValueError`, and an unchanged
driver for `maybe_mutate` under
`AttributeError`/`TypeError`/`ValueError`; a successful call passes
its result through unchanged, and any exception class outside the
handler's tuple propagates out of `tick()`. -/
theorem strategy_exception_call_site_contracts (e : PyExc) (d : Driver)
    (ps : List (ℕ × ℕ)) (b : Bool) (d2 : Driver) :
    (proposeCatch (.ok (some ps)) = .ok ps ∧ proposeCatch (.ok none) = .ok [] ∧
      decideCatch (.ok b) = .ok b ∧ mutateCatch d (.ok d2) = .ok d2) ∧
    (policyCallCaught e = true → proposeCatch (.error e) = .ok []) ∧
    (policyCallCaught e = false → proposeCatch (.error e) = .error e) ∧
    (decideCallCaught e = true → decideCatch (.error e) = .ok false) ∧
    (decideCallCaught e = false → decideCatch (.error e) = .error e) ∧
    (mutationCallCaught e = true → mutateCatch d (.error e) = .ok d) ∧
    (mutationCallCaught e = false → mutateCatch d (.error e) = .error e) ∧
    (policyCallCaught .attributeError = true ∧ policyCallCaught .typeError = true ∧
      policyCallCaught .valueError = true ∧ policyCallCaught .zeroDivisionError = false) ∧
    (decideCallCaught .typeError = true ∧ decideCallCaught .valueError = true ∧
      decideCallCaught .attributeError = false) := by
  refine ⟨⟨rfl, rfl, rfl, rfl⟩, ?_, ?_, ?_, ?_, ?_, ?_, ?_, ?_⟩ <;>
    first
      | exact ⟨rfl, rfl, rfl, rfl⟩
      | exact ⟨rfl, rfl, rfl⟩
      | (intro h; simp [proposeCatch, decideCatch, mutateCatch, h])

/-- Claim C4 counterexample: with stored probability 1 the rule
triggers on a draw of 0 at time 0, yet a
`GreedyDistanceBehaviour(10)` driver keeps exactly that behaviour —
it does not become `EarningMaxBehaviour(1.0)` as the claimed rotation
says — and an `EarningMaxBehaviour(1.0)` driver also keeps its
behaviour instead of becoming `LazyBehaviour(5)` (the attempted
`LazyBehaviour(max_idle=5)` constructor call raises `TypeError`,
which the rule catches and ignores). -/
theorem exploration_greedy_not_to_earningMax :
    (0 : ℝ) < min 1 (max 0 (1 * (1 + ((0 : ℤ) : ℝ) * 0.0005))) ∧
    explorationStep 1 0 0 (.greedyDistance 10) = .greedyDistance 10 ∧
    Behaviour.greedyDistance 10 ≠ .earningMax 1 ∧
    explorationStep 1 0 0 (.earningMax 1) = .earningMax 1 ∧
    Behaviour.earningMax 1 ≠ .lazy 5 ∧
    explorationStep 1 0 0 (.lazy 3) = .greedyDistance 10 := by
  have htrig : (0 : ℝ) < min 1 (max 0 (1 * (1 + ((0 : ℤ) : ℝ) * 0.0005))) := by norm_num
  refine ⟨htrig, ?_, by intro h; exact Behaviour.noConfusion h, ?_,
    by intro h; exact Behaviour.noConfusion h, ?_⟩ <;>
    · unfold explorationStep
      rw [if_pos htrig]

/-- Claim C4 (amended): when the draw falls below the clamped trigger
probability `min(1, max(0, probability * (1 + time*0.0005)))` — which
equals the claimed `min(1, probability * (1 + 0.0005*time))` whenever
the stored probability and the time are nonnegative — a Lazy driver
becomes `GreedyDistanceBehaviour(max_distance=10)` and every other
driver keeps its behaviour unchanged (the switch to Lazy is attempted
with an invalid `max_idle` keyword, raises `TypeError`, and is caught
inside the rule); without a trigger nothing changes.  There is no
three-state rotation and `EarningMaxBehaviour` is never produced. -/
theorem exploration_rotation_actual (p roll : ℝ) (t : ℤ) (b : Behaviour) :
    (roll < min 1 (max 0 (p * (1 + (t : ℝ) * 0.0005))) →
      (∀ mw, b = .lazy mw → explorationStep p roll t b = .greedyDistance 10) ∧
      ((∀ mw, b ≠ .lazy mw) → explorationStep p roll t b = b)) ∧
    (¬ roll < min 1 (max 0 (p * (1 + (t : ℝ) * 0.0005))) →
      explorationStep p roll t b = b) ∧
    (0 ≤ p → (0 : ℝ) ≤ (t : ℝ) →
      min 1 (max 0 (p * (1 + (t : ℝ) * 0.0005))) =
        min 1 (p * (1 + 0.0005 * (t : ℝ)))) := by
  refine ⟨fun htrig => ⟨fun mw hb => ?_, fun hnb => ?_⟩, fun hno => ?_, fun hp ht => ?_⟩
  · subst hb; unfold explorationStep; rw [if_pos htrig]
  · unfold explorationStep
    rw [if_pos htrig]
    match b, hnb with
    | .lazy mw, hnb => exact absurd rfl (hnb mw)
    | .greedyDistance _, _ => rfl
    | .earningMax _, _ => rfl
  · unfold explorationStep; rw [if_neg hno]
  · have h1 : (0 : ℝ) ≤ p * (1 + (t : ℝ) * 0.0005) := by positivity
    rw [max_eq_right h1]
    ring_nf

/-- Distance from a point to itself displaced by `c` times the vector
toward `q` scales the distance to `q` by `|c|`. -/
theorem distance_to_move (p q : Point) (c : ℝ) :
    p.distance_to (p.add ((q.sub p).smul c)) = |c| * p.distance_to q := by
  unfold Point.distance_to Point.add Point.sub Point.smul
  dsimp only
  have h1 : (p.x - (p.x + (q.x - p.x) * c)) ^ 2 + (p.y - (p.y + (q.y - p.y) * c)) ^ 2
      = c ^ 2 * ((p.x - q.x) ^ 2 + (p.y - q.y) ^ 2) := by ring
  rw [h1, Real.sqrt_mul (sq_nonneg c), Real.sqrt_sq_eq_abs]

/-- Claim C9: `Driver.step` never overshoots.  With no current target
(in particular whenever the driver is IDLE) the step is a no-op; with
a target within `speed*dt` the position snaps exactly onto the target;
otherwise (for a nonnegative movement budget) the driver moves to
`position + (target - position) * (speed*dt / distance)` — i.e. along
the unit vector toward the target — and the distance actually covered
is exactly `speed * dt`. -/
theorem driver_step_no_overshoot (d : Driver) (requests : List Request) (dt : ℝ) :
    (d.status = .IDLE → d.step requests dt = d) ∧
    (d.target_point requests = none → d.step requests dt = d) ∧
    ∀ tgt, d.target_point requests = some tgt →
      (d.position.distance_to tgt ≤ d.speed * dt →
        (d.step requests dt).position = tgt) ∧
      (0 ≤ d.speed * dt → d.speed * dt < d.position.distance_to tgt →
        (d.step requests dt).position =
          d.position.add ((tgt.sub d.position).smul
            (d.speed * dt / d.position.distance_to tgt)) ∧
        d.position.distance_to (d.step requests dt).position = d.speed * dt) := by
  have hidle : d.status = .IDLE → d.target_point requests = none := by
    intro h
    unfold Driver.target_point
    match d.current_request with
    | none => rfl
    | some ri => simp [h]
  refine ⟨?_, ?_, ?_⟩
  · intro h
    unfold Driver.step
    rw [hidle h]
  · intro h
    unfold Driver.step
    rw [h]
  · intro tgt htgt
    constructor
    · intro hle
      unfold Driver.step
      rw [htgt]
      dsimp only
      rw [if_pos hle]
    · intro hmv hlt
      have hne : d.step requests dt =
          { d with position := d.position.add ((tgt.sub d.position).smul
              (d.speed * dt / d.position.distance_to tgt)) } := by
        unfold Driver.step
        rw [htgt]
        dsimp only
        rw [if_neg (not_le.mpr hlt)]
      have hdpos : 0 < d.position.distance_to tgt := lt_of_le_of_lt hmv hlt
      refine ⟨by rw [hne], ?_⟩
      rw [hne]
      dsimp only
      rw [distance_to_move]
      rw [abs_of_nonneg (div_nonneg hmv (le_of_lt hdpos))]
      field_simp

/-! ### Dispatch-policy output sanity -/

/-- Every pair the greedy sweep emits comes from a candidate tuple and
avoids the used lists it started with. -/
theorem ggSweep_mem (cs : List (ℝ × ℕ × ℕ)) :
    ∀ (u v : List ℕ), ∀ p ∈ ggSweep cs u v,
      (∃ c ∈ cs, p = (c.2.1, c.2.2)) ∧ p.1 ∉ u ∧ p.2 ∉ v := by
  induction cs with
  | nil =>
    intro u v p hp
    simp [ggSweep] at hp
  | cons c rest ih =>
    intro u v p hp
    obtain ⟨x, di, ri⟩ := c
    simp only [ggSweep] at hp
    by_cases hm : di ∈ u ∨ ri ∈ v
    · rw [if_pos hm] at hp
      obtain ⟨⟨c2, hc2, hpc⟩, h1, h2⟩ := ih u v p hp
      exact ⟨⟨c2, List.mem_cons_of_mem _ hc2, hpc⟩, h1, h2⟩
    · rw [if_neg hm] at hp
      push_neg at hm
      rcases List.mem_cons.mp hp with rfl | hp2
      · exact ⟨⟨(x, di, ri), List.mem_cons_self _ _, rfl⟩, hm.1, hm.2⟩
      · obtain ⟨⟨c2, hc2, hpc⟩, h1, h2⟩ := ih _ _ p hp2
        refine ⟨⟨c2, List.mem_cons_of_mem _ hc2, hpc⟩, fun hu => ?_, fun hv => ?_⟩
        · exact h1 (List.mem_cons_of_mem _ hu)
        · exact h2 (List.mem_cons_of_mem _ hv)

/-- The greedy sweep never emits a driver index or a request index
twice. -/
theorem ggSweep_pairwise (cs : List (ℝ × ℕ × ℕ)) :
    ∀ (u v : List ℕ),
      (ggSweep cs u v).Pairwise fun a b => a.1 ≠ b.1 ∧ a.2 ≠ b.2 := by
  induction cs with
  | nil => intro u v; simp [ggSweep]
  | cons c rest ih =>
    intro u v
    obtain ⟨x, di, ri⟩ := c
    simp only [ggSweep]
    by_cases hm : di ∈ u ∨ ri ∈ v
    · rw [if_pos hm]; exact ih u v
    · rw [if_neg hm]
      refine List.Pairwise.cons ?_ (ih _ _)
      intro b hb
      obtain ⟨_, h1, h2⟩ := ggSweep_mem rest _ _ b hb
      refine ⟨fun he => h1 ?_, fun he => h2 ?_⟩
      · rw [← he]; exact List.mem_cons_self _ _
      · rw [← he]; exact List.mem_cons_self _ _

/-- The sweep's accepted candidates form a sublist of the candidate
list, projected to index pairs. -/
theorem ggSweep_sublist (cs : List (ℝ × ℕ × ℕ)) :
    ∀ (u v : List ℕ), ∃ cs2 : List (ℝ × ℕ × ℕ), cs2.Sublist cs ∧
      ggSweep cs u v = cs2.map fun c => (c.2.1, c.2.2) := by
  induction cs with
  | nil => intro u v; exact ⟨[], by simp, by simp [ggSweep]⟩
  | cons c rest ih =>
    intro u v
    obtain ⟨x, di, ri⟩ := c
    simp only [ggSweep]
    by_cases hm : di ∈ u ∨ ri ∈ v
    · rw [if_pos hm]
      obtain ⟨cs2, hsub, heq⟩ := ih u v
      exact ⟨cs2, hsub.cons _, heq⟩
    · rw [if_neg hm]
      obtain ⟨cs2, hsub, heq⟩ := ih (di :: u) (ri :: v)
      exact ⟨(x, di, ri) :: cs2, hsub.cons₂ _, by simp [heq]⟩

/-- Every global-greedy candidate tuple is an IDLE driver (by list
position) paired with a given request, keyed by their distance. -/
theorem ggCombos_mem (drivers : List Driver) (waiting : List (ℕ × Request)) :
    ∀ c ∈ ggCombos drivers waiting,
      ∃ d r, drivers[c.2.1]? = some d ∧ d.status = .IDLE ∧ (c.2.2, r) ∈ waiting ∧
        c.1 = d.position.distance_to r.pickup := by
  intro c hc
  unfold ggCombos at hc
  obtain ⟨p, hp, hc2⟩ := List.mem_flatMap.mp hc
  obtain ⟨q, hq, rfl⟩ := List.mem_map.mp hc2
  have hpf := List.of_mem_filter hp
  have hpm := List.mem_of_mem_filter hp
  obtain ⟨i, d⟩ := p
  obtain ⟨ri, r⟩ := q
  exact ⟨d, r, List.mk_mem_enum_iff_getElem?.mp hpm, by simpa using hpf, hq, rfl⟩

open Classical in
/-- When `GlobalGreedyPolicy.assign` returns (no sort tie), its output
has pairwise-distinct drivers and requests, drawn from the IDLE
drivers and the given requests. -/
theorem globalGreedyAssign_good (drivers : List Driver)
    (waiting : List (ℕ × Request)) (l : List (ℕ × ℕ))
    (h : globalGreedyAssign drivers waiting = some l) :
    l.Pairwise (fun a b => a.1 ≠ b.1 ∧ a.2 ≠ b.2) ∧
    ∀ p ∈ l, (∃ d, drivers[p.1]? = some d ∧ d.status = .IDLE) ∧
      ∃ r, (p.2, r) ∈ waiting := by
  unfold globalGreedyAssign at h
  by_cases ht : ggTie (ggCombos drivers waiting)
  · rw [if_pos ht] at h; cases h
  · rw [if_neg ht] at h
    obtain rfl := Option.some.inj h
    refine ⟨ggSweep_pairwise _ _ _, ?_⟩
    intro p hp
    obtain ⟨⟨c, hc, rfl⟩, _, _⟩ := ggSweep_mem _ _ _ p hp
    have hc2 : c ∈ ggCombos drivers waiting :=
      (List.perm_insertionSort comboLE _).subset hc
    obtain ⟨d, r, hd, hidle, hw, _⟩ := ggCombos_mem _ _ c hc2
    exact ⟨⟨d, hd, hidle⟩, ⟨r, hw⟩⟩

/-- The scan fold returns either its starting accumulator or a scanned
candidate. -/
theorem nnFold_mem (l : List (ℝ × ℕ × ℕ)) :
    ∀ (acc : Option (ℝ × ℕ × ℕ)) (c), l.foldl nnPick acc = some c →
      acc = some c ∨ c ∈ l := by
  induction l with
  | nil => intro acc c h; exact Or.inl h
  | cons a t ih =>
    intro acc c h
    rw [List.foldl_cons] at h
    rcases ih _ c h with h2 | h2
    · cases acc with
      | none =>
        simp only [nnPick] at h2
        exact Or.inr (Option.some.inj h2 ▸ List.mem_cons_self _ _)
      | some b =>
        simp only [nnPick] at h2
        by_cases hab : a.1 < b.1
        · rw [if_pos hab] at h2
          exact Or.inr (Option.some.inj h2 ▸ List.mem_cons_self _ _)
        · rw [if_neg hab] at h2
          exact Or.inl h2
    · exact Or.inr (List.mem_cons_of_mem _ h2)

/-- A selected nearest pair really is a candidate from the scanned
lists. -/
theorem nnScan_mem (idle : List (ℕ × Driver)) (waiting : List (ℕ × Request))
    (c : ℝ × ℕ × ℕ) (h : nnScan idle waiting = some c) :
    ∃ p ∈ idle, ∃ q ∈ waiting, c = (p.2.position.distance_to q.2.pickup, p.1, q.1) := by
  unfold nnScan at h
  rcases nnFold_mem _ none c h with h2 | h2
  · cases h2
  · obtain ⟨p, hp, hq⟩ := List.mem_flatMap.mp h2
    obtain ⟨q, hqq, rfl⟩ := List.mem_map.mp hq
    exact ⟨p, hp, q, hqq, rfl⟩

/-- Removing the entry with a given first component (under a nodup
first-component list) keeps only entries with other first components. -/
theorem mem_eraseP_fst_ne {α : Type} (di : ℕ) :
    ∀ (l : List (ℕ × α)), (l.map Prod.fst).Nodup →
      ∀ p ∈ l.eraseP (fun x => x.1 == di), p ∈ l ∧ p.1 ≠ di := by
  intro l
  induction l with
  | nil => simp [List.eraseP]
  | cons h t ih =>
    intro hnd p hp
    have hnd2 := hnd
    rw [List.map_cons, List.nodup_cons] at hnd2
    by_cases hh : h.1 = di
    · rw [List.eraseP_cons_of_pos (by simp [hh])] at hp
      refine ⟨List.mem_cons_of_mem _ hp, fun hpd => ?_⟩
      exact hnd2.1 (hh ▸ hpd ▸ List.mem_map_of_mem Prod.fst hp)
    · rw [List.eraseP_cons_of_neg (by simp [hh])] at hp
      rcases List.mem_cons.mp hp with rfl | hp2
      · exact ⟨List.mem_cons_self _ _, hh⟩
      · obtain ⟨hm, hne⟩ := ih hnd2.2 p hp2
        exact ⟨List.mem_cons_of_mem _ hm, hne⟩

/-- Every pair the nearest-neighbor loop emits is an idle driver and a
waiting request from the input lists. -/
theorem nnLoop_mem (fuel : ℕ) :
    ∀ (idle : List (ℕ × Driver)) (waiting : List (ℕ × Request)),
      ∀ p ∈ nnLoop fuel idle waiting,
        (∃ d, (p.1, d) ∈ idle) ∧ ∃ r, (p.2, r) ∈ waiting := by
  induction fuel with
  | zero => intro idle waiting p hp; simp [nnLoop] at hp
  | succ fuel ih =>
    intro idle waiting p hp
    rw [nnLoop] at hp
    by_cases he : idle.isEmpty || waiting.isEmpty
    · rw [if_pos he] at hp; simp at hp
    · rw [if_neg he] at hp
      cases hscan : nnScan idle waiting with
      | none => rw [hscan] at hp; simp at hp
      | some c =>
        rw [hscan] at hp
        obtain ⟨x, di, ri⟩ := c
        rcases List.mem_cons.mp hp with rfl | hp2
        · obtain ⟨pq, hpq, q, hq, hc⟩ := nnScan_mem idle waiting _ hscan
          simp only [Prod.mk.injEq] at hc
          refine ⟨⟨pq.2, ?_⟩, ⟨q.2, ?_⟩⟩
          · rw [hc.2.1]; exact hpq
          · rw [hc.2.2]; exact hq
        · obtain ⟨⟨d, hd⟩, ⟨r, hr⟩⟩ := ih _ _ p hp2
          exact ⟨⟨d, (List.eraseP_sublist _).subset hd⟩,
            ⟨r, (List.eraseP_sublist _).subset hr⟩⟩

/-- The nearest-neighbor loop never emits a driver index or a request
index twice (inputs indexed without duplicates). -/
theorem nnLoop_pairwise (fuel : ℕ) :
    ∀ (idle : List (ℕ × Driver)) (waiting : List (ℕ × Request)),
      (idle.map Prod.fst).Nodup → (waiting.map Prod.fst).Nodup →
      (nnLoop fuel idle waiting).Pairwise fun a b => a.1 ≠ b.1 ∧ a.2 ≠ b.2 := by
  induction fuel with
  | zero => intro idle waiting _ _; simp [nnLoop]
  | succ fuel ih =>
    intro idle waiting hD hR
    rw [nnLoop]
    by_cases he : idle.isEmpty || waiting.isEmpty
    · rw [if_pos he]; simp
    · rw [if_neg he]
      cases hscan : nnScan idle waiting with
      | none => simp
      | some c =>
        obtain ⟨x, di, ri⟩ := c
        refine List.Pairwise.cons ?_ ?_
        · intro b hb
          obtain ⟨⟨d, hd⟩, ⟨r, hr⟩⟩ := nnLoop_mem fuel _ _ b hb
          refine ⟨?_, ?_⟩
          · intro he2
            exact (mem_eraseP_fst_ne di _ hD _ hd).2 (by rw [← he2])
          · intro he2
            exact (mem_eraseP_fst_ne ri _ hR _ hr).2 (by rw [← he2])
        · refine ih _ _ ?_ ?_
          · exact hD.sublist ((List.eraseP_sublist _).map Prod.fst)
          · exact hR.sublist ((List.eraseP_sublist _).map Prod.fst)

/-- `NearestNeighborPolicy.assign` emits pairwise-distinct IDLE drivers
and given requests. -/
theorem nearestNeighborAssign_good (drivers : List Driver)
    (waiting : List (ℕ × Request)) (hR : (waiting.map Prod.fst).Nodup) :
    (nearestNeighborAssign drivers waiting).Pairwise
      (fun a b => a.1 ≠ b.1 ∧ a.2 ≠ b.2) ∧
    ∀ p ∈ nearestNeighborAssign drivers waiting,
      (∃ d, drivers[p.1]? = some d ∧ d.status = .IDLE) ∧
      ∃ r, (p.2, r) ∈ waiting := by
  unfold nearestNeighborAssign
  have hD : ((drivers.enum.filter fun p => p.2.status = .IDLE).map Prod.fst).Nodup := by
    refine List.Nodup.sublist ((List.filter_sublist _).map Prod.fst) ?_
    rw [List.enum_map_fst]
    exact List.nodup_range _
  refine ⟨nnLoop_pairwise _ _ _ hD hR, ?_⟩
  intro p hp
  obtain ⟨⟨d, hd⟩, ⟨r, hr⟩⟩ := nnLoop_mem _ _ _ p hp
  have hde := List.mem_of_mem_filter hd
  have hdi := List.of_mem_filter hd
  exact ⟨⟨d, List.mk_mem_enum_iff_getElem?.mp hde, by simpa using hdi⟩, ⟨r, hr⟩⟩

/-! ### Arena lookup helpers and stage frame lemmas -/

/-- Setting a valid index makes the lookup return the new value. -/
theorem get?_set_eq_of_lt {α : Type} (l : List α) (i : ℕ) (a : α)
    (h : i < l.length) : (l.set i a)[i]? = some a := by
  rw [List.getElem?_set_self']
  rw [List.getElem?_eq_getElem h]
  rfl

/-- A lookup that succeeds is within bounds. -/
theorem lt_of_get?_eq_some {α : Type} {l : List α} {i : ℕ} {a : α}
    (h : l[i]? = some a) : i < l.length := by
  by_contra hn
  rw [List.getElem?_eq_none (Nat.le_of_not_lt hn)] at h
  cases h

/-- Well-formedness only reads the two arenas. -/
theorem WF_of_eq (s1 s2 : SimState) (hd : s2.drivers = s1.drivers)
    (hr : s2.requests = s1.requests) (h : WF s1) : WF s2 := by
  intro di d ri hdi hcur
  rw [hd] at hdi
  obtain ⟨h1, ⟨r, hr2, h3⟩, h4⟩ := h di d ri hdi hcur
  refine ⟨h1, ⟨r, by rw [hr]; exact hr2, h3⟩, ?_⟩
  intro dj d2 hdj
  rw [hd] at hdj
  exact h4 dj d2 hdj

/-- Stage 1 appends requests and touches nothing else; lookups of
already-present requests are unchanged. -/
theorem generatePhase_frame (cfg : SimConfig) (s : SimState) :
    (generatePhase cfg s).drivers = s.drivers ∧
    (generatePhase cfg s).time = s.time ∧
    (generatePhase cfg s).timeout = s.timeout ∧
    (generatePhase cfg s).servedCount = s.servedCount ∧
    (generatePhase cfg s).expiredCount = s.expiredCount ∧
    (generatePhase cfg s).totalWaitTime = s.totalWaitTime ∧
    (generatePhase cfg s).completedDeliveries = s.completedDeliveries ∧
    ∀ (i : ℕ), i < s.requests.length →
      (generatePhase cfg s).requests[i]? = s.requests[i]? := by
  refine ⟨rfl, rfl, rfl, rfl, rfl, rfl, rfl, ?_⟩
  intro i hi
  simp [generatePhase, List.getElem?_append, hi]

/-- A non-WAITING request is untouched by the waiting-time update. -/
theorem expireCheck_not_waiting (time timeout : ℤ) (r : Request)
    (h : r.status ≠ .WAITING) : expireCheck time timeout r = r := by
  unfold expireCheck
  rw [if_neg h]

/-- A still-waiting request just gets its wait recomputed. -/
theorem expireCheck_still_waiting (time timeout : ℤ) (r : Request)
    (h : stillWaiting time timeout r = true) :
    expireCheck time timeout r = r.update_wait time ∧
    (expireCheck time timeout r).status = .WAITING := by
  unfold stillWaiting at h
  rw [Bool.and_eq_true, decide_eq_true_eq, Bool.not_eq_eq_eq_not, Bool.not_true,
    decide_eq_false_iff_not] at h
  unfold expireCheck
  rw [if_pos h.1]
  have : ¬ timeout < (r.update_wait time).wait_time := by
    simpa [Request.update_wait] using h.2
  rw [if_neg this]
  exact ⟨rfl, by simp [Request.update_wait, h.1]⟩

/-- An overdue WAITING request is expired by the update. -/
theorem expireCheck_newly_expired (time timeout : ℤ) (r : Request)
    (h : newlyExpired time timeout r = true) :
    expireCheck time timeout r = (r.update_wait time).mark_expired time := by
  unfold newlyExpired at h
  rw [Bool.and_eq_true, decide_eq_true_eq, decide_eq_true_eq] at h
  unfold expireCheck
  rw [if_pos h.1]
  have : timeout < (r.update_wait time).wait_time := by
    simpa [Request.update_wait] using h.2
  rw [if_pos this]

/-- Stage 2 frame: drivers, clock, timeout and the non-expiry counters
are untouched; request lookups go through `expireCheck`. -/
theorem updateWaitingPhase_frame (s : SimState) :
    (updateWaitingPhase s).1.drivers = s.drivers ∧
    (updateWaitingPhase s).1.time = s.time ∧
    (updateWaitingPhase s).1.timeout = s.timeout ∧
    (updateWaitingPhase s).1.servedCount = s.servedCount ∧
    (updateWaitingPhase s).1.totalWaitTime = s.totalWaitTime ∧
    (updateWaitingPhase s).1.completedDeliveries = s.completedDeliveries ∧
    (updateWaitingPhase s).1.expiredCount =
      s.expiredCount + (s.requests.filter (newlyExpired s.time s.timeout)).length ∧
    ∀ i : ℕ, (updateWaitingPhase s).1.requests[i]? =
      (s.requests[i]?).map (expireCheck s.time s.timeout) := by
  refine ⟨rfl, rfl, rfl, rfl, rfl, rfl, rfl, ?_⟩
  intro i
  simp [updateWaitingPhase, List.getElem?_map]

/-- Indices in the tick's waiting list point at still-waiting requests
(of the pre-update arena) and carry no duplicates. -/
theorem updateWaitingPhase_waiting (s : SimState) :
    (updateWaitingPhase s).2.Nodup ∧
    ∀ i ∈ (updateWaitingPhase s).2,
      ∃ r, s.requests[i]? = some r ∧ stillWaiting s.time s.timeout r = true := by
  constructor
  · exact (List.nodup_range _).filter _
  · intro i hi
    have hmem := List.of_mem_filter hi
    cases hr : s.requests[i]? with
    | none => rw [hr] at hmem; cases hmem
    | some r => rw [hr] at hmem; exact ⟨r, rfl, hmem⟩

/-- A still-waiting index resolves, after the update, to a WAITING
request. -/
theorem updateWaitingPhase_waiting_after (s : SimState) :
    ∀ i ∈ (updateWaitingPhase s).2,
      ∃ r, (updateWaitingPhase s).1.requests[i]? = some r ∧
        r.status = .WAITING := by
  intro i hi
  obtain ⟨r, hr, hsw⟩ := (updateWaitingPhase_waiting s).2 i hi
  obtain ⟨-, -, -, -, -, -, -, hlook⟩ := updateWaitingPhase_frame s
  refine ⟨expireCheck s.time s.timeout r, ?_, (expireCheck_still_waiting _ _ _ hsw).2⟩
  rw [hlook i, hr]
  rfl

/-- Members of the policy-facing waiting pairs. -/
theorem mem_waitingPairs (s : SimState) (idx : List ℕ) (p : ℕ × Request)
    (h : p ∈ waitingPairs s idx) :
    p.1 ∈ idx ∧ s.requests[p.1]? = some p.2 := by
  unfold waitingPairs at h
  obtain ⟨i, hi, hsome⟩ := List.mem_filterMap.mp h
  cases hr : s.requests[i]? with
  | none => rw [hr] at hsome; cases hsome
  | some r =>
    rw [hr] at hsome
    cases hsome
    exact ⟨hi, hr⟩

/-- The waiting pairs inherit index distinctness. -/
theorem waitingPairs_fst_nodup (s : SimState) (idx : List ℕ) (h : idx.Nodup) :
    ((waitingPairs s idx).map Prod.fst).Nodup := by
  induction idx with
  | nil => simp [waitingPairs]
  | cons i t ih =>
    rw [List.nodup_cons] at h
    unfold waitingPairs
    rw [List.filterMap_cons]
    cases hr : s.requests[i]? with
    | none => exact ih h.2
    | some r =>
      simp only [Option.map_some']
      rw [List.map_cons, List.nodup_cons]
      refine ⟨fun hmem => ?_, ih h.2⟩
      obtain ⟨q, hq, hq2⟩ := List.mem_map.mp hmem
      have hq3 : q.1 = i := hq2
      exact h.1 (hq3 ▸ (mem_waitingPairs s t q hq).1)

/-- Stage 3 always hands stage 5 a sane proposal list. -/
theorem proposePhase_good (pol : Policy) (s : SimState) (waiting : List ℕ)
    (hnd : waiting.Nodup) :
    GoodProposals s waiting (proposePhase pol s waiting) := by
  cases pol with
  | nearestNeighbor =>
    show GoodProposals s waiting
      ((some (nearestNeighborAssign s.drivers (waitingPairs s waiting))).getD [])
    rw [Option.getD_some]
    obtain ⟨hpw, hmem⟩ := nearestNeighborAssign_good s.drivers (waitingPairs s waiting)
      (waitingPairs_fst_nodup s waiting hnd)
    refine ⟨hpw, ?_⟩
    intro p hp
    obtain ⟨hd, ⟨r, hr⟩⟩ := hmem p hp
    exact ⟨hd, (mem_waitingPairs s waiting (p.2, r) hr).1⟩
  | globalGreedy =>
    show GoodProposals s waiting
      ((globalGreedyAssign s.drivers (waitingPairs s waiting)).getD [])
    cases hgg : globalGreedyAssign s.drivers (waitingPairs s waiting) with
    | none => exact ⟨by simp, by simp⟩
    | some l =>
      rw [Option.getD_some]
      obtain ⟨hpw, hmem⟩ := globalGreedyAssign_good s.drivers _ l hgg
      refine ⟨hpw, ?_⟩
      intro p hp
      obtain ⟨hd, ⟨r, hr⟩⟩ := hmem p hp
      exact ⟨hd, (mem_waitingPairs s waiting (p.2, r) hr).1⟩

/-- Stage 4 only filters the proposal list, so its sanity survives. -/
theorem processOffers_good (s : SimState) (waiting : List ℕ) (ps : List (ℕ × ℕ))
    (h : GoodProposals s waiting ps) :
    GoodProposals s waiting (processOffers s ps) := by
  refine ⟨h.1.sublist (List.filter_sublist ps), ?_⟩
  intro p hp
  exact h.2 p (List.mem_of_mem_filter hp)

/-! ### Well-formedness through stages 1, 2 and 5 -/

/-- Appending generated requests keeps the engine well-formed. -/
theorem generatePhase_WF (cfg : SimConfig) (s : SimState) (h : WF s) :
    WF (generatePhase cfg s) := by
  obtain ⟨hd, -, -, -, -, -, -, hlook⟩ := generatePhase_frame cfg s
  intro di d ri hdi hcur
  rw [hd] at hdi
  obtain ⟨h1, ⟨r, hr, hA, hid⟩, h4⟩ := h di d ri hdi hcur
  refine ⟨h1, ⟨r, ?_, hA, hid⟩, ?_⟩
  · rw [hlook ri (lt_of_get?_eq_some hr)]
    exact hr
  · intro dj d2 hdj
    rw [hd] at hdj
    exact h4 dj d2 hdj

/-- The waiting-time update keeps the engine well-formed: held requests
are ASSIGNED or PICKED, which `expireCheck` leaves alone. -/
theorem updateWaiting_WF (s : SimState) (h : WF s) : WF (updateWaitingPhase s).1 := by
  obtain ⟨hd, -, -, -, -, -, -, hlook⟩ := updateWaitingPhase_frame s
  intro di d ri hdi hcur
  rw [hd] at hdi
  obtain ⟨h1, ⟨r, hr, hA, hid⟩, h4⟩ := h di d ri hdi hcur
  refine ⟨h1, ⟨r, ?_, hA, hid⟩, ?_⟩
  · rw [hlook ri, hr, Option.map_some']
    rw [expireCheck_not_waiting _ _ r (by rcases hA with h2 | h2 <;> simp [h2])]
  · intro dj d2 hdj
    rw [hd] at hdj
    exact h4 dj d2 hdj

/-- One finalize iteration that skips leaves everything alone. -/
theorem finalizeStep_skip (st : SimState) (uD uR : List ℕ) (p : ℕ × ℕ)
    (d : Driver) (r : Request)
    (hd : st.drivers[p.1]? = some d) (hr : st.requests[p.2]? = some r)
    (hskip : p.1 ∈ uD ∨ p.2 ∈ uR ∨ r.status = .ASSIGNED) :
    finalizeStep (st, uD, uR) p = (st, uD, uR) := by
  unfold finalizeStep
  dsimp only
  simp only [hd, hr]
  rw [if_pos hskip]

/-- One finalize iteration that fires performs
`driver.assign_request(request, time)` plus
`request.mark_assigned(driver.id)` and consumes both indices. -/
theorem finalizeStep_assign (st : SimState) (uD uR : List ℕ) (p : ℕ × ℕ)
    (d : Driver) (r : Request)
    (hd : st.drivers[p.1]? = some d) (hr : st.requests[p.2]? = some r)
    (hskip : ¬(p.1 ∈ uD ∨ p.2 ∈ uR ∨ r.status = .ASSIGNED)) :
    finalizeStep (st, uD, uR) p =
      ({ st with
          drivers := st.drivers.set p.1
            (d.assign_request_fields p.2 (some (st.time : ℝ)) none)
          requests := st.requests.set p.2 (r.mark_assigned d.id) },
        p.1 :: uD, p.2 :: uR) := by
  unfold finalizeStep
  dsimp only
  simp only [hd, hr]
  rw [if_neg hskip]

/-- Assigning an IDLE driver to a WAITING request keeps the engine
well-formed. -/
theorem WF_assign (st : SimState) (di ri : ℕ) (d : Driver) (r : Request)
    (hd : st.drivers[di]? = some d) (hr : st.requests[ri]? = some r)
    (hidle : d.status = .IDLE) (hw : r.status = .WAITING) (hWF : WF st) :
    WF { st with
      drivers := st.drivers.set di
        (d.assign_request_fields ri (some (st.time : ℝ)) none)
      requests := st.requests.set ri (r.mark_assigned d.id) } := by
  have hltd := lt_of_get?_eq_some hd
  have hltr := lt_of_get?_eq_some hr
  have hnoholder : ∀ (dj : ℕ) (dwho : Driver), st.drivers[dj]? = some dwho →
      dwho.current_request ≠ some ri := by
    intro dj dwho hdj hc
    obtain ⟨-, ⟨r2, hr2, hA, -⟩, -⟩ := hWF dj dwho ri hdj hc
    rw [hr] at hr2
    obtain rfl := Option.some.inj hr2
    rcases hA with h2 | h2 <;> rw [hw] at h2 <;> cases h2
  intro dj dwho rj hlook hold
  by_cases hdj : dj = di
  · subst hdj
    rw [show ({ st with
        drivers := st.drivers.set dj
          (d.assign_request_fields ri (some (st.time : ℝ)) none)
        requests := st.requests.set ri (r.mark_assigned d.id) } : SimState).drivers
      = st.drivers.set dj (d.assign_request_fields ri (some (st.time : ℝ)) none)
      from rfl, get?_set_eq_of_lt _ _ _ hltd] at hlook
    obtain rfl := Option.some.inj hlook
    have hri : some ri = some rj := hold
    obtain rfl := Option.some.inj hri
    refine ⟨by simp [Driver.assign_request_fields], ?_, ?_⟩
    · refine ⟨r.mark_assigned d.id, ?_, Or.inl rfl, rfl⟩
      show (st.requests.set ri (r.mark_assigned d.id))[ri]? = _
      rw [get?_set_eq_of_lt _ _ _ hltr]
    · intro dk dk2 hk hold2
      by_cases hkd : dk = dj
      · exact hkd
      · rw [show ∀ x, (st.drivers.set dj x)[dk]? = st.drivers[dk]? from
          fun x => List.getElem?_set_ne (fun he => hkd he.symm)] at hk
        exact absurd hold2 (hnoholder dk dk2 hk)
  · rw [show ({ st with
        drivers := st.drivers.set di
          (d.assign_request_fields ri (some (st.time : ℝ)) none)
        requests := st.requests.set ri (r.mark_assigned d.id) } : SimState).drivers
      = st.drivers.set di (d.assign_request_fields ri (some (st.time : ℝ)) none)
      from rfl, List.getElem?_set_ne (fun he => hdj he.symm)] at hlook
    obtain ⟨hst, ⟨r2, hr2, hA, hid⟩, huniq⟩ := hWF dj dwho rj hlook hold
    have hrne : rj ≠ ri := fun he => hnoholder dj dwho hlook (he ▸ hold)
    refine ⟨hst, ⟨r2, ?_, hA, hid⟩, ?_⟩
    · show (st.requests.set ri (r.mark_assigned d.id))[rj]? = _
      rw [List.getElem?_set_ne (fun he => hrne he.symm)]
      exact hr2
    · intro dk dk2 hk hold2
      by_cases hkd : dk = di
      · subst hkd
        rw [show ({ st with
            drivers := st.drivers.set dk
              (d.assign_request_fields ri (some (st.time : ℝ)) none)
            requests := st.requests.set ri (r.mark_assigned d.id) } : SimState).drivers
          = st.drivers.set dk (d.assign_request_fields ri (some (st.time : ℝ)) none)
          from rfl, get?_set_eq_of_lt _ _ _ hltd] at hk
        obtain rfl := Option.some.inj hk
        have hri : some ri = some rj := hold2
        exact absurd (Option.some.inj hri) (fun he => hrne he.symm)
      · rw [show ({ st with
            drivers := st.drivers.set di
              (d.assign_request_fields ri (some (st.time : ℝ)) none)
            requests := st.requests.set ri (r.mark_assigned d.id) } : SimState).drivers
          = st.drivers.set di (d.assign_request_fields ri (some (st.time : ℝ)) none)
          from rfl, List.getElem?_set_ne (fun he => hkd he.symm)] at hk
        exact huniq dk dk2 hk hold2

/-- The finalize fold preserves well-formedness for a sane accepted
list. -/
theorem finalizeFold_WF (accepted : List (ℕ × ℕ)) :
    ∀ (st : SimState) (uD uR : List ℕ), WF st →
      (∀ p ∈ accepted,
        (∃ d, st.drivers[p.1]? = some d ∧ d.status = .IDLE) ∧
        (∃ r, st.requests[p.2]? = some r ∧ r.status = .WAITING)) →
      accepted.Pairwise (fun a b => a.1 ≠ b.1 ∧ a.2 ≠ b.2) →
      WF (accepted.foldl finalizeStep (st, uD, uR)).1 := by
  induction accepted with
  | nil => intro st uD uR hWF _ _; exact hWF
  | cons p rest ih =>
    intro st uD uR hWF hgood hpw
    rw [List.foldl_cons]
    obtain ⟨⟨d, hd, hidle⟩, ⟨r, hr, hw⟩⟩ := hgood p (List.mem_cons_self _ _)
    rw [List.pairwise_cons] at hpw
    by_cases hskip : p.1 ∈ uD ∨ p.2 ∈ uR ∨ r.status = .ASSIGNED
    · rw [finalizeStep_skip st uD uR p d r hd hr hskip]
      exact ih st uD uR hWF (fun q hq => hgood q (List.mem_cons_of_mem _ hq)) hpw.2
    · rw [finalizeStep_assign st uD uR p d r hd hr hskip]
      refine ih _ _ _ (WF_assign st p.1 p.2 d r hd hr hidle hw hWF) ?_ hpw.2
      intro q hq
      obtain ⟨⟨dq, hdq, hidq⟩, ⟨rq, hrq, hwq⟩⟩ := hgood q (List.mem_cons_of_mem _ hq)
      obtain ⟨hne1, hne2⟩ := hpw.1 q hq
      refine ⟨⟨dq, ?_, hidq⟩, ⟨rq, ?_, hwq⟩⟩
      · show (st.drivers.set p.1 _)[q.1]? = _
        rw [List.getElem?_set_ne hne1]
        exact hdq
      · show (st.requests.set p.2 _)[q.2]? = _
        rw [List.getElem?_set_ne hne2]
        exact hrq

/-- Stage 5 preserves well-formedness. -/
theorem finalizeAssignments_WF (s : SimState) (accepted : List (ℕ × ℕ))
    (hWF : WF s)
    (hgood : ∀ p ∈ accepted,
      (∃ d, s.drivers[p.1]? = some d ∧ d.status = .IDLE) ∧
      (∃ r, s.requests[p.2]? = some r ∧ r.status = .WAITING))
    (hpw : accepted.Pairwise (fun a b => a.1 ≠ b.1 ∧ a.2 ≠ b.2)) :
    WF (finalizeAssignments s accepted) :=
  finalizeFold_WF accepted s [] [] hWF hgood hpw

/-! ### Well-formedness through stage 6 (movement and arrivals) -/

/-- `Driver.step` only moves the position. -/
theorem step_fields (d : Driver) (reqs : List Request) (dt : ℝ) :
    (d.step reqs dt).id = d.id ∧ (d.step reqs dt).status = d.status ∧
    (d.step reqs dt).current_request = d.current_request ∧
    (d.step reqs dt).position_at_assignment = d.position_at_assignment ∧
    (d.step reqs dt).assigned_reward = d.assigned_reward ∧
    (d.step reqs dt).history = d.history ∧
    (d.step reqs dt).speed = d.speed := by
  unfold Driver.step
  cases d.target_point reqs with
  | none => exact ⟨rfl, rfl, rfl, rfl, rfl, rfl, rfl⟩
  | some dest =>
    dsimp only
    by_cases hle : d.position.distance_to dest ≤ d.speed * dt
    · rw [if_pos hle]; exact ⟨rfl, rfl, rfl, rfl, rfl, rfl, rfl⟩
    · rw [if_neg hle]; exact ⟨rfl, rfl, rfl, rfl, rfl, rfl, rfl⟩

/-- The pickup-arrival check either does nothing or completes the
pickup of the held request. -/
theorem pickupPhase_cases (t : ℤ) (d : Driver) (reqs : List Request) :
    pickupPhase t d reqs = (d, reqs) ∨
    ∃ ri r, d.current_request = some ri ∧ d.status = .TO_PICKUP ∧
      reqs[ri]? = some r ∧
      pickupPhase t d reqs = (d.complete_pickup_fields, reqs.set ri (r.mark_picked t)) := by
  unfold pickupPhase
  cases hc : d.current_request with
  | none => exact Or.inl rfl
  | some ri =>
    dsimp only
    by_cases hs : d.status = .TO_PICKUP
    · rw [if_pos hs]
      cases hr : reqs[ri]? with
      | none => exact Or.inl rfl
      | some r =>
        dsimp only
        by_cases hdist : d.position.distance_to r.pickup < engineArrivalEps
        · rw [if_pos hdist]
          exact Or.inr ⟨ri, r, rfl, hs, hr, rfl⟩
        · rw [if_neg hdist]; exact Or.inl rfl
    · rw [if_neg hs]; exact Or.inl rfl

/-- The dropoff-arrival check either leaves driver and requests alone
(whatever the counter flag says) or releases the held request as
DELIVERED and resets the driver to IDLE. -/
theorem dropoffPhase_cases (t : ℤ) (d : Driver) (reqs : List Request) :
    ((dropoffPhase t d reqs).1 = d ∧ (dropoffPhase t d reqs).2.1 = reqs) ∨
    ∃ ri r, d.current_request = some ri ∧ reqs[ri]? = some r ∧
      (dropoffPhase t d reqs).1.current_request = none ∧
      (dropoffPhase t d reqs).1.status = .IDLE ∧
      (dropoffPhase t d reqs).1.id = d.id ∧
      (dropoffPhase t d reqs).2.1 = reqs.set ri (r.mark_delivered t) := by
  unfold dropoffPhase
  cases hc : d.current_request with
  | none => exact Or.inl ⟨rfl, rfl⟩
  | some ri =>
    dsimp only
    by_cases hs : d.status = .TO_DROPOFF
    · rw [if_pos hs]
      cases hr : reqs[ri]? with
      | none => exact Or.inl ⟨rfl, rfl⟩
      | some r =>
        dsimp only
        by_cases hdist : d.position.distance_to r.dropoff < engineArrivalEps
        · rw [if_pos hdist]
          unfold completeDropoff
          rw [hc]
          dsimp only
          cases hpa : d.position_at_assignment with
          | none => exact Or.inl ⟨rfl, rfl⟩
          | some pa =>
            dsimp only
            rw [if_pos hs, hr]
            exact Or.inr ⟨ri, r, rfl, hr, rfl, rfl, rfl, rfl⟩
        · rw [if_neg hdist]; exact Or.inl ⟨rfl, rfl⟩
    · rw [if_neg hs]; exact Or.inl ⟨rfl, rfl⟩

/-- Generic driver-slot update lemma: replacing driver `di` by one
that holds the same request (or nothing), with the requests arena
changed at most at the held index — where it must stay
ASSIGNED/PICKED with the matching id — keeps the engine well-formed. -/
theorem WF_update (s : SimState) (di : ℕ) (d0 d2 : Driver) (requests2 : List Request)
    (hd0 : s.drivers[di]? = some d0) (hWF : WF s)
    (hcur : d2.current_request = d0.current_request ∨ d2.current_request = none)
    (hreq_other : ∀ j : ℕ, d0.current_request ≠ some j → requests2[j]? = s.requests[j]?)
    (hheld : ∀ ri : ℕ, d2.current_request = some ri →
      d2.status ≠ .IDLE ∧
      ∃ r, requests2[ri]? = some r ∧ (r.status = .ASSIGNED ∨ r.status = .PICKED) ∧
        r.assigned_driver_id = some d2.id) :
    WF { s with drivers := s.drivers.set di d2, requests := requests2 } := by
  have hlt := lt_of_get?_eq_some hd0
  intro dj dwho rj hlook hold
  rw [show ({ s with
      drivers := s.drivers.set di d2
      requests := requests2 } : SimState).drivers = s.drivers.set di d2 from rfl] at hlook
  by_cases hdj : dj = di
  · subst hdj
    rw [get?_set_eq_of_lt _ _ _ hlt] at hlook
    obtain rfl := Option.some.inj hlook
    obtain ⟨hst, ⟨r, hr, hA, hid⟩⟩ := hheld rj hold
    refine ⟨hst, ⟨r, hr, hA, hid⟩, ?_⟩
    intro dk dk2 hk hold2
    rw [show ({ s with
        drivers := s.drivers.set dj d2
        requests := requests2 } : SimState).drivers = s.drivers.set dj d2 from rfl] at hk
    by_cases hkd : dk = dj
    · exact hkd
    · rw [List.getElem?_set_ne (fun he => hkd he.symm)] at hk
      have hd0cur : d0.current_request = some rj := by
        rcases hcur with hc | hc
        · rw [← hc]; exact hold
        · rw [hc] at hold; cases hold
      obtain ⟨-, -, huniq⟩ := hWF dk dk2 rj hk hold2
      exact (huniq dj d0 hd0 hd0cur).symm
  · rw [List.getElem?_set_ne (fun he => hdj he.symm)] at hlook
    obtain ⟨hst, ⟨r, hr, hA, hid⟩, huniq⟩ := hWF dj dwho rj hlook hold
    have hd0ne : d0.current_request ≠ some rj := by
      intro hc
      exact hdj (huniq di d0 hd0 hc).symm
    refine ⟨hst, ⟨r, ?_, hA, hid⟩, ?_⟩
    · show requests2[rj]? = _
      rw [hreq_other rj hd0ne]
      exact hr
    · intro dk dk2 hk hold2
      rw [show ({ s with
          drivers := s.drivers.set di d2
          requests := requests2 } : SimState).drivers = s.drivers.set di d2 from rfl] at hk
      by_cases hkd : dk = di
      · subst hkd
        rw [get?_set_eq_of_lt _ _ _ hlt] at hk
        obtain rfl := Option.some.inj hk
        rcases hcur with hc | hc
        · rw [hc] at hold2
          exact absurd hold2 hd0ne
        · rw [hc] at hold2; cases hold2
      · rw [List.getElem?_set_ne (fun he => hkd he.symm)] at hk
        exact huniq dk dk2 hk hold2

/-- One driver's move-and-arrivals turn keeps the engine well-formed. -/
theorem moveOne_WF (s : SimState) (di : ℕ) (hWF : WF s) : WF (moveOne s di) := by
  unfold moveOne
  cases hd0 : s.drivers[di]? with
  | none => exact hWF
  | some d0 =>
    dsimp only
    set d1 := d0.step s.requests 1 with hd1def
    set p1 := pickupPhase s.time d1 s.requests with hp1def
    set p2 := dropoffPhase s.time p1.1 p1.2 with hp2def
    have hid1 : d1.id = d0.id := (step_fields d0 s.requests 1).1
    have hst1 : d1.status = d0.status := (step_fields d0 s.requests 1).2.1
    have hcur1 : d1.current_request = d0.current_request :=
      (step_fields d0 s.requests 1).2.2.1
    have hmain : WF { s with drivers := s.drivers.set di p2.1, requests := p2.2.1 } := by
      rcases pickupPhase_cases s.time d1 s.requests with
        hP | ⟨riB, rB, hcB, hsB, hrB, hP⟩
      on_goal 1 => rcases dropoffPhase_cases s.time p1.1 p1.2 with
          ⟨hD1, hD2⟩ | ⟨riD, rD, hcD, hrD, hcurD, hstD, hidD, hD2⟩
      on_goal 3 => rcases dropoffPhase_cases s.time p1.1 p1.2 with
          ⟨hD1, hD2⟩ | ⟨riD, rD, hcD, hrD, hcurD, hstD, hidD, hD2⟩
      · -- no pickup, no dropoff
        rw [← hp2def] at hD1 hD2
        refine WF_update s di d0 p2.1 p2.2.1 hd0 hWF ?_ ?_ ?_
        · refine Or.inl ?_
          rw [hD1, hp1def, hP]
          exact hcur1
        · intro j _
          rw [hD2, hp1def, hP]
        · intro ri hri
          rw [hD1, hp1def, hP] at hri
          have hri2 : d1.current_request = some ri := hri
          rw [hcur1] at hri2
          obtain ⟨hstat, ⟨r, hr, hA, hid⟩, -⟩ := hWF di d0 ri hd0 hri2
          refine ⟨?_, r, ?_, hA, ?_⟩
          · rw [hD1, hp1def, hP]
            show d1.status ≠ DStatus.IDLE
            rw [hst1]
            exact hstat
          · rw [hD2, hp1def, hP]
            exact hr
          · rw [hD1, hp1def, hP]
            show r.assigned_driver_id = some d1.id
            rw [hid1]
            exact hid
      · -- no pickup, dropoff fires
        rw [← hp2def] at hcurD hstD hidD hD2
        have hd1D : d1.current_request = some riD := by
          rw [hp1def, hP] at hcD
          exact hcD
        have hd0D : d0.current_request = some riD := by
          rw [← hcur1]
          exact hd1D
        refine WF_update s di d0 p2.1 p2.2.1 hd0 hWF (Or.inr hcurD) ?_ ?_
        · intro j hj
          rw [hD2, hp1def, hP]
          have hne : riD ≠ j := fun he => hj (he ▸ hd0D)
          exact List.getElem?_set_ne hne
        · intro ri hri
          rw [hcurD] at hri
          cases hri
      · -- pickup fires, no dropoff
        rw [← hp2def] at hD1 hD2
        have hd0B : d0.current_request = some riB := by
          rw [← hcur1]
          exact hcB
        refine WF_update s di d0 p2.1 p2.2.1 hd0 hWF ?_ ?_ ?_
        · refine Or.inl ?_
          rw [hD1, hp1def, hP]
          show d1.current_request = d0.current_request
          exact hcur1
        · intro j hj
          rw [hD2, hp1def, hP]
          have hne : riB ≠ j := fun he => hj (he ▸ hd0B)
          exact List.getElem?_set_ne hne
        · intro ri hri
          rw [hD1, hp1def, hP] at hri
          have hri2 : d1.current_request = some ri := hri
          rw [hcB] at hri2
          obtain rfl := (Option.some.inj hri2).symm
          obtain ⟨-, ⟨rW, hrW, -, hidW⟩, -⟩ := hWF di d0 ri hd0 hd0B
          have hrBW : rW = rB := by
            rw [hrB] at hrW
            exact (Option.some.inj hrW).symm
          refine ⟨?_, rB.mark_picked s.time, ?_, Or.inr rfl, ?_⟩
          · rw [hD1, hp1def, hP]
            show (Driver.complete_pickup_fields d1).status ≠ DStatus.IDLE
            simp [Driver.complete_pickup_fields]
          · rw [hD2, hp1def, hP]
            exact get?_set_eq_of_lt _ _ _ (lt_of_get?_eq_some hrB)
          · rw [hD1, hp1def, hP]
            show (rB.mark_picked s.time).assigned_driver_id =
              some (Driver.complete_pickup_fields d1).id
            show rB.assigned_driver_id = some d1.id
            rw [hid1, ← hrBW]
            exact hidW
      · -- pickup fires, dropoff fires
        rw [← hp2def] at hcurD hstD hidD hD2
        have hd0B : d0.current_request = some riB := by
          rw [← hcur1]
          exact hcB
        have hd1D : d1.current_request = some riD := by
          rw [hp1def, hP] at hcD
          exact hcD
        have hriDB : riD = riB := by
          rw [hcB] at hd1D
          exact (Option.some.inj hd1D).symm
        refine WF_update s di d0 p2.1 p2.2.1 hd0 hWF (Or.inr hcurD) ?_ ?_
        · intro j hj
          have hne : riB ≠ j := fun he => hj (he ▸ hd0B)
          rw [hD2, hp1def, hP, hriDB]
          rw [List.getElem?_set_ne hne, List.getElem?_set_ne hne]
        · intro ri hri
          rw [hcurD] at hri
          cases hri
    cases hx : p2.2.2 with
    | none => exact WF_of_eq _ _ rfl rfl hmain
    | some ri => exact WF_of_eq _ _ rfl rfl hmain

/-- Stage 6 preserves well-formedness. -/
theorem movePhase_WF (s : SimState) (hWF : WF s) : WF (movePhase s) := by
  unfold movePhase
  generalize List.range s.drivers.length = idxs
  induction idxs generalizing s with
  | nil => exact hWF
  | cons i t ih =>
    rw [List.foldl_cons]
    exact ih (moveOne s i) (moveOne_WF s i hWF)

/-! ### Well-formedness through stage 7 and the whole tick -/

/-- A mutation rule only ever rewrites the behaviour. -/
theorem applyRule_fields (rule : MRule) (roll : ℝ) (t : ℤ) (d : Driver) :
    (applyRule rule roll t d).id = d.id ∧
    (applyRule rule roll t d).status = d.status ∧
    (applyRule rule roll t d).current_request = d.current_request ∧
    (applyRule rule roll t d).position_at_assignment = d.position_at_assignment ∧
    (applyRule rule roll t d).assigned_reward = d.assigned_reward ∧
    (applyRule rule roll t d).history = d.history := by
  cases rule with
  | exploration p => exact ⟨rfl, rfl, rfl, rfl, rfl, rfl⟩
  | performance th n =>
    have he : applyRule (MRule.performance th n) roll t d = d := performanceStep_id th n d
    rw [he]
    exact ⟨rfl, rfl, rfl, rfl, rfl, rfl⟩

/-- The per-driver rule fold only ever rewrites the behaviour. -/
theorem mutFold_fields (t : ℤ) (g : ℕ → ℝ) (l : List (ℕ × MRule)) :
    ∀ d : Driver,
      (l.foldl (fun d q => applyRule q.2 (g q.1) t d) d).id = d.id ∧
      (l.foldl (fun d q => applyRule q.2 (g q.1) t d) d).status = d.status ∧
      (l.foldl (fun d q => applyRule q.2 (g q.1) t d) d).current_request =
        d.current_request ∧
      (l.foldl (fun d q => applyRule q.2 (g q.1) t d) d).position_at_assignment =
        d.position_at_assignment ∧
      (l.foldl (fun d q => applyRule q.2 (g q.1) t d) d).assigned_reward =
        d.assigned_reward ∧
      (l.foldl (fun d q => applyRule q.2 (g q.1) t d) d).history = d.history := by
  induction l with
  | nil => intro d; exact ⟨rfl, rfl, rfl, rfl, rfl, rfl⟩
  | cons q rest ih =>
    intro d
    rw [List.foldl_cons]
    obtain ⟨h1, h2, h3, h4, h5, h6⟩ := ih (applyRule q.2 (g q.1) t d)
    obtain ⟨g1, g2, g3, g4, g5, g6⟩ := applyRule_fields q.2 (g q.1) t d
    exact ⟨h1.trans g1, h2.trans g2, h3.trans g3, h4.trans g4,
      h5.trans g5, h6.trans g6⟩

/-- Stage 7 lookups: each driver is the rule fold of the old driver. -/
theorem mutatePhase_lookup (rules : List MRule) (rolls : ℕ → ℕ → ℝ) (t : ℤ)
    (drivers : List Driver) (i : ℕ) :
    (mutatePhase rules rolls t drivers)[i]? =
      (drivers[i]?).map fun d =>
        rules.enum.foldl (fun d q => applyRule q.2 (rolls i q.1) t d) d := by
  unfold mutatePhase
  rw [List.getElem?_map]
  rw [show drivers.enum[i]? = (drivers[i]?).map fun a => (i, a) by
    simp [List.getElem?_enum]]
  cases drivers[i]? <;> rfl

/-- Stage 7 preserves well-formedness. -/
theorem mutatePhase_WF (s : SimState) (rules : List MRule) (rolls : ℕ → ℕ → ℝ)
    (t : ℤ) (h : WF s) :
    WF { s with drivers := mutatePhase rules rolls t s.drivers } := by
  intro di d ri hdi hcur
  rw [show ({ s with drivers := mutatePhase rules rolls t s.drivers } : SimState).drivers
      = mutatePhase rules rolls t s.drivers from rfl, mutatePhase_lookup] at hdi
  cases hd0 : s.drivers[di]? with
  | none => rw [hd0] at hdi; cases hdi
  | some d0 =>
    rw [hd0, Option.map_some'] at hdi
    obtain rfl := Option.some.inj hdi
    obtain ⟨hfid, hfst, hfcur, -, -, -⟩ := mutFold_fields t (rolls di) rules.enum d0
    have hcur0 : d0.current_request = some ri := by rw [← hfcur]; exact hcur
    obtain ⟨hstat, ⟨r, hr, hA, hid⟩, huniq⟩ := h di d0 ri hd0 hcur0
    refine ⟨by rw [hfst]; exact hstat, ⟨r, hr, hA, by rw [hfid]; exact hid⟩, ?_⟩
    intro dj d2 hdj hcur2
    rw [show ({ s with drivers := mutatePhase rules rolls t s.drivers } : SimState).drivers
        = mutatePhase rules rolls t s.drivers from rfl, mutatePhase_lookup] at hdj
    cases hd0j : s.drivers[dj]? with
    | none => rw [hd0j] at hdj; cases hdj
    | some d0j =>
      rw [hd0j, Option.map_some'] at hdj
      obtain rfl := Option.some.inj hdj
      obtain ⟨-, -, hfcurj, -, -, -⟩ := mutFold_fields t (rolls dj) rules.enum d0j
      have : d0j.current_request = some ri := by rw [← hfcurj]; exact hcur2
      exact huniq dj d0j hd0j this

/-- One whole tick preserves well-formedness, for any configuration of
the shipped policies, any generator and any mutation rules. -/
theorem tick_WF (cfg : SimConfig) (s : SimState) (h : WF s) : WF (tick cfg s) := by
  have h1 := generatePhase_WF cfg s h
  have h2 := updateWaiting_WF _ h1
  have hgood := processOffers_good (updateWaitingPhase (generatePhase cfg s)).1
    (updateWaitingPhase (generatePhase cfg s)).2
    (proposePhase cfg.policy (updateWaitingPhase (generatePhase cfg s)).1
      (updateWaitingPhase (generatePhase cfg s)).2)
    (proposePhase_good cfg.policy (updateWaitingPhase (generatePhase cfg s)).1
      (updateWaitingPhase (generatePhase cfg s)).2
      (updateWaitingPhase_waiting (generatePhase cfg s)).1)
  have hgood2 : ∀ p ∈ processOffers (updateWaitingPhase (generatePhase cfg s)).1
      (proposePhase cfg.policy (updateWaitingPhase (generatePhase cfg s)).1
        (updateWaitingPhase (generatePhase cfg s)).2),
      (∃ d, (updateWaitingPhase (generatePhase cfg s)).1.drivers[p.1]? = some d ∧
        d.status = .IDLE) ∧
      ∃ r, (updateWaitingPhase (generatePhase cfg s)).1.requests[p.2]? = some r ∧
        r.status = .WAITING := by
    intro p hp
    obtain ⟨hd, hw⟩ := hgood.2 p hp
    exact ⟨hd, updateWaitingPhase_waiting_after (generatePhase cfg s) p.2 hw⟩
  have h5 := finalizeAssignments_WF _ _ h2 hgood2 hgood.1
  have h6 := movePhase_WF _ h5
  have h7 := mutatePhase_WF
    (movePhase (finalizeAssignments (updateWaitingPhase (generatePhase cfg s)).1
      (processOffers (updateWaitingPhase (generatePhase cfg s)).1
        (proposePhase cfg.policy (updateWaitingPhase (generatePhase cfg s)).1
          (updateWaitingPhase (generatePhase cfg s)).2))))
    cfg.rules
    (cfg.rolls (movePhase (finalizeAssignments (updateWaitingPhase (generatePhase cfg s)).1
      (processOffers (updateWaitingPhase (generatePhase cfg s)).1
        (proposePhase cfg.policy (updateWaitingPhase (generatePhase cfg s)).1
          (updateWaitingPhase (generatePhase cfg s)).2)))).time)
    (movePhase (finalizeAssignments (updateWaitingPhase (generatePhase cfg s)).1
      (processOffers (updateWaitingPhase (generatePhase cfg s)).1
        (proposePhase cfg.policy (updateWaitingPhase (generatePhase cfg s)).1
          (updateWaitingPhase (generatePhase cfg s)).2)))).time
    h6
  exact WF_of_eq _ _ rfl rfl h7

/-- Iterated ticks preserve well-formedness. -/
theorem tickN_WF (cfg : SimConfig) (n : ℕ) :
    ∀ s : SimState, WF s → WF (tickN cfg n s) := by
  induction n with
  | zero => intro s h; exact h
  | succ n ih =>
    intro s h
    rw [show tickN cfg (n + 1) s = tickN cfg n (tick cfg s) from rfl]
    exact ih (tick cfg s) (tick_WF cfg s h)

/-- A claim-well-formed initial state is well-formed. -/
theorem InitOK_WF (s : SimState) (h : InitOK s) : WF s := by
  intro di d ri hdi hcur
  have hmem : d ∈ s.drivers := by
    rcases List.getElem?_eq_some.mp hdi with ⟨hlt, rfl⟩
    exact List.getElem_mem hlt
  rw [(h.1 d hmem).2] at hcur
  cases hcur

/-- Well-formedness implies the claim's no-double-assignment shape. -/
theorem WF_NoDouble (s : SimState) (h : WF s) : NoDouble s := by
  refine ⟨?_, ?_, ?_⟩
  · intro di dj d d2 ri hdi hdj hci hcj
    obtain ⟨-, -, huniq⟩ := h dj d2 ri hdj hcj
    exact huniq di d hdi hci
  · intro di d ri rj hdi hci hcj
    rw [hci] at hcj
    exact Option.some.inj hcj
  · intro di d ri hdi hci
    obtain ⟨-, ⟨r, hr, -, hid⟩, -⟩ := h di d ri hdi hci
    exact ⟨r, hr, hid⟩

/-- Claim C1: starting from a well-formed initial state (every driver
IDLE holding nothing, every request WAITING), any number of ticks —
under either shipped dispatch policy, any request generator and any
shipped mutation rules — leaves no request referenced by two drivers,
each driver holding at most one request, and each held request's
`assigned_driver_id` equal to its unique holder's id. -/
theorem noDoubleAssignment_over_ticks (cfg : SimConfig) (s0 : SimState)
    (h : InitOK s0) (n : ℕ) : NoDouble (tickN cfg n s0) :=
  WF_NoDouble _ (tickN_WF cfg n s0 (InitOK_WF s0 h))

/-- Witness for claim C1 at a concrete initial state. -/
theorem noDoubleAssignment_over_ticks_witness :
    InitOK expState ∧ ∀ n : ℕ, NoDouble (tickN emptyCfg n expState) := by
  have hinit : InitOK expState := by
    constructor
    · intro d hd
      simp [expState] at hd
    · intro r hr
      simp [expState] at hr
      rw [hr]
      rfl
  exact ⟨hinit, fun n => noDoubleAssignment_over_ticks emptyCfg expState hinit n⟩

/-! ### Counter bookkeeping (claims C10, C3, C6) -/

/-- One finalize iteration either skips or assigns. -/
theorem finalizeStep_cases (st : SimState) (uD uR : List ℕ) (p : ℕ × ℕ) :
    finalizeStep (st, uD, uR) p = (st, uD, uR) ∨
    ∃ d r, st.drivers[p.1]? = some d ∧ st.requests[p.2]? = some r ∧
      r.status ≠ .ASSIGNED ∧ p.1 ∉ uD ∧ p.2 ∉ uR ∧
      finalizeStep (st, uD, uR) p =
        ({ st with
            drivers := st.drivers.set p.1
              (d.assign_request_fields p.2 (some (st.time : ℝ)) none)
            requests := st.requests.set p.2 (r.mark_assigned d.id) },
          p.1 :: uD, p.2 :: uR) := by
  cases hd : st.drivers[p.1]? with
  | none =>
    left
    unfold finalizeStep
    dsimp only
    rw [hd]
  | some d =>
    cases hr : st.requests[p.2]? with
    | none =>
      left
      unfold finalizeStep
      dsimp only
      rw [hd, hr]
    | some r =>
      by_cases hskip : p.1 ∈ uD ∨ p.2 ∈ uR ∨ r.status = .ASSIGNED
      · exact Or.inl (finalizeStep_skip st uD uR p d r hd hr hskip)
      · right
        push_neg at hskip
        exact ⟨d, r, rfl, rfl, hskip.2.2, hskip.1, hskip.2.1,
          finalizeStep_assign st uD uR p d r hd hr (by push_neg; exact hskip)⟩

/-- The finalize fold never touches the clock, the timeout, any
counter, or the arena sizes. -/
theorem finalizeFold_frame (accepted : List (ℕ × ℕ)) :
    ∀ (st : SimState) (uD uR : List ℕ),
      (accepted.foldl finalizeStep (st, uD, uR)).1.time = st.time ∧
      (accepted.foldl finalizeStep (st, uD, uR)).1.timeout = st.timeout ∧
      (accepted.foldl finalizeStep (st, uD, uR)).1.servedCount = st.servedCount ∧
      (accepted.foldl finalizeStep (st, uD, uR)).1.expiredCount = st.expiredCount ∧
      (accepted.foldl finalizeStep (st, uD, uR)).1.totalWaitTime = st.totalWaitTime ∧
      (accepted.foldl finalizeStep (st, uD, uR)).1.completedDeliveries =
        st.completedDeliveries ∧
      (accepted.foldl finalizeStep (st, uD, uR)).1.requests.length =
        st.requests.length := by
  induction accepted with
  | nil => intro st uD uR; exact ⟨rfl, rfl, rfl, rfl, rfl, rfl, rfl⟩
  | cons p rest ih =>
    intro st uD uR
    rw [List.foldl_cons]
    rcases finalizeStep_cases st uD uR p with he | ⟨d, r, -, -, -, -, -, he⟩
    · rw [he]
      exact ih st uD uR
    · rw [he]
      obtain ⟨f1, f2, f3, f4, f5, f6, f7⟩ := ih _ (p.1 :: uD) (p.2 :: uR)
      exact ⟨f1, f2, f3, f4, f5, f6, f7.trans (by simp)⟩

/-- Stage 6 for one driver: clock, timeout, expiry count untouched;
the served and completed-deliveries counters move in lockstep. -/
theorem moveOne_frame (s : SimState) (di : ℕ) :
    (moveOne s di).time = s.time ∧
    (moveOne s di).timeout = s.timeout ∧
    (moveOne s di).expiredCount = s.expiredCount ∧
    (moveOne s di).drivers.length = s.drivers.length ∧
    ((moveOne s di).servedCount = s.servedCount ∧
      (moveOne s di).completedDeliveries = s.completedDeliveries ∨
     (moveOne s di).servedCount = s.servedCount + 1 ∧
      (moveOne s di).completedDeliveries = s.completedDeliveries + 1) := by
  unfold moveOne
  cases hd0 : s.drivers[di]? with
  | none => exact ⟨rfl, rfl, rfl, rfl, Or.inl ⟨rfl, rfl⟩⟩
  | some d0 =>
    dsimp only
    cases hx : (dropoffPhase s.time (pickupPhase s.time (d0.step s.requests 1)
        s.requests).1 (pickupPhase s.time (d0.step s.requests 1) s.requests).2).2.2 with
    | none => exact ⟨rfl, rfl, rfl, by simp, Or.inl ⟨rfl, rfl⟩⟩
    | some ri => exact ⟨rfl, rfl, rfl, by simp, Or.inr ⟨rfl, rfl⟩⟩

/-- Stage 6 keeps the two delivery counters equal. -/
theorem movePhase_SC (s : SimState)
    (h : s.servedCount = s.completedDeliveries) :
    (movePhase s).servedCount = (movePhase s).completedDeliveries := by
  unfold movePhase
  generalize List.range s.drivers.length = idxs
  induction idxs generalizing s with
  | nil => exact h
  | cons i t ih =>
    rw [List.foldl_cons]
    refine ih (moveOne s i) ?_
    rcases (moveOne_frame s i).2.2.2.2 with ⟨h1, h2⟩ | ⟨h1, h2⟩
    · rw [h1, h2]; exact h
    · rw [h1, h2, h]

/-- One whole tick keeps the two delivery counters equal. -/
theorem tick_SC (cfg : SimConfig) (s : SimState)
    (h : s.servedCount = s.completedDeliveries) :
    (tick cfg s).servedCount = (tick cfg s).completedDeliveries := by
  have h1 : (generatePhase cfg s).servedCount =
      (generatePhase cfg s).completedDeliveries := h
  have h2 : (updateWaitingPhase (generatePhase cfg s)).1.servedCount =
      (updateWaitingPhase (generatePhase cfg s)).1.completedDeliveries := h1
  obtain ⟨-, -, f3, -, -, f6, -⟩ := finalizeFold_frame
    (processOffers (updateWaitingPhase (generatePhase cfg s)).1
      (proposePhase cfg.policy (updateWaitingPhase (generatePhase cfg s)).1
        (updateWaitingPhase (generatePhase cfg s)).2))
    (updateWaitingPhase (generatePhase cfg s)).1 [] []
  have h5 : (finalizeAssignments (updateWaitingPhase (generatePhase cfg s)).1
      (processOffers (updateWaitingPhase (generatePhase cfg s)).1
        (proposePhase cfg.policy (updateWaitingPhase (generatePhase cfg s)).1
          (updateWaitingPhase (generatePhase cfg s)).2))).servedCount =
      (finalizeAssignments (updateWaitingPhase (generatePhase cfg s)).1
      (processOffers (updateWaitingPhase (generatePhase cfg s)).1
        (proposePhase cfg.policy (updateWaitingPhase (generatePhase cfg s)).1
          (updateWaitingPhase (generatePhase cfg s)).2))).completedDeliveries := by
    unfold finalizeAssignments
    rw [f3, f6]
    exact h2
  exact movePhase_SC _ h5

/-- Claim C10: `served_count` and `completed_deliveries` move together —
they are bumped in the same dropoff branch of stage 6 and nowhere
else — so states that start with them equal (both 0 at construction)
keep them equal after any number of ticks. -/
theorem served_equals_completed (cfg : SimConfig) (s0 : SimState)
    (h : s0.servedCount = s0.completedDeliveries) (n : ℕ) :
    (tickN cfg n s0).servedCount = (tickN cfg n s0).completedDeliveries := by
  induction n generalizing s0 with
  | zero => exact h
  | succ n ih =>
    rw [show tickN cfg (n + 1) s0 = tickN cfg n (tick cfg s0) from rfl]
    exact ih (tick cfg s0) (tick_SC cfg s0 h)

/-- Witness for claim C10 at a concrete initial state. -/
theorem served_equals_completed_witness :
    expState.servedCount = expState.completedDeliveries ∧
    ∀ n : ℕ, (tickN emptyCfg n expState).servedCount =
      (tickN emptyCfg n expState).completedDeliveries :=
  ⟨rfl, fun n => served_equals_completed emptyCfg expState rfl n⟩

/-! ### Rewards and earnings are always zero on the engine path (C3) -/

/-- The pickup check never touches reward or history. -/
theorem pickupPhase_earnings (t : ℤ) (d : Driver) (reqs : List Request) :
    (pickupPhase t d reqs).1.assigned_reward = d.assigned_reward ∧
    (pickupPhase t d reqs).1.history = d.history := by
  rcases pickupPhase_cases t d reqs with hp | ⟨ri, r, -, -, -, hp⟩ <;>
    rw [hp] <;> exact ⟨rfl, rfl⟩

/-- The dropoff check either leaves reward and history alone, or
zeroes the reward and appends one record whose earnings are the
driver's pre-dropoff `assigned_reward`. -/
theorem dropoffPhase_earnings (t : ℤ) (d : Driver) (reqs : List Request) :
    ((dropoffPhase t d reqs).1.assigned_reward = d.assigned_reward ∧
      (dropoffPhase t d reqs).1.history = d.history) ∨
    ((dropoffPhase t d reqs).1.assigned_reward = 0 ∧
      ∃ tr : TripRecord, (dropoffPhase t d reqs).1.history = d.history ++ [tr] ∧
        tr.earnings = d.assigned_reward) := by
  unfold dropoffPhase
  cases hc : d.current_request with
  | none => exact Or.inl ⟨rfl, rfl⟩
  | some ri =>
    dsimp only
    by_cases hs : d.status = .TO_DROPOFF
    · rw [if_pos hs]
      cases hr : reqs[ri]? with
      | none => exact Or.inl ⟨rfl, rfl⟩
      | some r =>
        dsimp only
        by_cases hdist : d.position.distance_to r.dropoff < engineArrivalEps
        · rw [if_pos hdist]
          unfold completeDropoff
          rw [hc]
          dsimp only
          cases hpa : d.position_at_assignment with
          | none => exact Or.inl ⟨rfl, rfl⟩
          | some pa =>
            dsimp only
            rw [if_pos hs, hr]
            exact Or.inr ⟨rfl,
              TripRecord.mk d.id r.id t d.assigned_reward
                (pa.distance_to r.pickup + r.pickup.distance_to r.dropoff),
              rfl, rfl⟩
        · rw [if_neg hdist]; exact Or.inl ⟨rfl, rfl⟩
    · rw [if_neg hs]; exact Or.inl ⟨rfl, rfl⟩

/-- One driver's move turn keeps all rewards and earnings at zero. -/
theorem moveOne_ZE (s : SimState) (di : ℕ) (h : ZeroEarnings s) :
    ZeroEarnings (moveOne s di) := by
  unfold moveOne
  cases hd0 : s.drivers[di]? with
  | none => exact h
  | some d0 =>
    dsimp only
    set d1 := d0.step s.requests 1 with hd1def
    set p1 := pickupPhase s.time d1 s.requests with hp1def
    set p2 := dropoffPhase s.time p1.1 p1.2 with hp2def
    have hstep := step_fields d0 s.requests 1
    obtain ⟨hz0, hh0⟩ := h di d0 hd0
    have h1r : d1.assigned_reward = 0 := by rw [hstep.2.2.2.2.1]; exact hz0
    have h1h : d1.history = d0.history := hstep.2.2.2.2.2.1
    have hp1e := pickupPhase_earnings s.time d1 s.requests
    rw [← hp1def] at hp1e
    have hpr : p1.1.assigned_reward = 0 := by rw [hp1e.1]; exact h1r
    have hph : p1.1.history = d0.history := by rw [hp1e.2]; exact h1h
    have hZnew : p2.1.assigned_reward = 0 ∧ ∀ tr ∈ p2.1.history, tr.earnings = 0 := by
      rcases dropoffPhase_earnings s.time p1.1 p1.2 with ⟨ha, hb⟩ | ⟨ha, tr, hb, hc⟩
      · rw [← hp2def] at ha hb
        refine ⟨by rw [ha]; exact hpr, ?_⟩
        intro tr htr
        rw [hb, hph] at htr
        exact hh0 tr htr
      · rw [← hp2def] at ha hb
        refine ⟨ha, ?_⟩
        intro tr2 htr2
        rw [hb, hph] at htr2
        rcases List.mem_append.mp htr2 with hm | hm
        · exact hh0 tr2 hm
        · rw [List.mem_singleton.mp hm, hc]
          exact hpr
    have hgoal : ∀ st2 : SimState, st2.drivers = s.drivers.set di p2.1 →
        ZeroEarnings st2 := by
      intro st2 hst2 dj d hdj
      rw [hst2] at hdj
      by_cases hj : dj = di
      · subst hj
        rw [get?_set_eq_of_lt _ _ _ (lt_of_get?_eq_some hd0)] at hdj
        obtain rfl := Option.some.inj hdj
        exact hZnew
      · rw [List.getElem?_set_ne (fun he => hj he.symm)] at hdj
        exact h dj d hdj
    cases hx : p2.2.2 with
    | none => exact hgoal _ rfl
    | some ri => exact hgoal _ rfl

/-- Stage 6 keeps all rewards and earnings at zero. -/
theorem movePhase_ZE (s : SimState) (h : ZeroEarnings s) :
    ZeroEarnings (movePhase s) := by
  unfold movePhase
  generalize List.range s.drivers.length = idxs
  induction idxs generalizing s with
  | nil => exact h
  | cons i t ih =>
    rw [List.foldl_cons]
    exact ih (moveOne s i) (moveOne_ZE s i h)

/-- The engine-side `assign_request` call stores a zero reward: the
second positional argument is the simulation time, the `reward`
keyword is never passed, and the compatibility branch zeroes the
field. -/
theorem assign_request_zero_reward (d : Driver) (ri : ℕ) (x : ℝ) :
    (d.assign_request_fields ri (some x) none).assigned_reward = 0 ∧
    (d.assign_request_fields ri (some x) none).history = d.history :=
  ⟨rfl, rfl⟩

/-- Stage 5 keeps all rewards and earnings at zero. -/
theorem finalizeFold_ZE (accepted : List (ℕ × ℕ)) :
    ∀ (st : SimState) (uD uR : List ℕ), ZeroEarnings st →
      ZeroEarnings (accepted.foldl finalizeStep (st, uD, uR)).1 := by
  induction accepted with
  | nil => intro st uD uR h; exact h
  | cons p rest ih =>
    intro st uD uR h
    rw [List.foldl_cons]
    rcases finalizeStep_cases st uD uR p with he | ⟨d, r, hd, -, -, -, -, he⟩
    · rw [he]
      exact ih st uD uR h
    · rw [he]
      refine ih _ (p.1 :: uD) (p.2 :: uR) ?_
      intro dj d2 hdj
      rw [show ({ st with
          drivers := st.drivers.set p.1
            (d.assign_request_fields p.2 (some (st.time : ℝ)) none)
          requests := st.requests.set p.2 (r.mark_assigned d.id) } : SimState).drivers
        = st.drivers.set p.1
            (d.assign_request_fields p.2 (some (st.time : ℝ)) none) from rfl] at hdj
      by_cases hj : dj = p.1
      · subst hj
        rw [get?_set_eq_of_lt _ _ _ (lt_of_get?_eq_some hd)] at hdj
        obtain rfl := Option.some.inj hdj
        refine ⟨rfl, ?_⟩
        show ∀ tr ∈ d.history, tr.earnings = 0
        exact (h p.1 d hd).2
      · rw [List.getElem?_set_ne (fun he2 => hj he2.symm)] at hdj
        exact h dj d2 hdj

/-- Stage 7 keeps all rewards and earnings at zero. -/
theorem mutatePhase_ZE (s : SimState) (rules : List MRule) (rolls : ℕ → ℕ → ℝ)
    (t : ℤ) (h : ZeroEarnings s) :
    ZeroEarnings { s with drivers := mutatePhase rules rolls t s.drivers } := by
  intro di d hdi
  rw [show ({ s with drivers := mutatePhase rules rolls t s.drivers } : SimState).drivers
      = mutatePhase rules rolls t s.drivers from rfl, mutatePhase_lookup] at hdi
  cases hd0 : s.drivers[di]? with
  | none => rw [hd0] at hdi; cases hdi
  | some d0 =>
    rw [hd0, Option.map_some'] at hdi
    obtain rfl := Option.some.inj hdi
    obtain ⟨-, -, -, -, hfr, hfh⟩ := mutFold_fields t (rolls di) rules.enum d0
    obtain ⟨hz, hh⟩ := h di d0 hd0
    refine ⟨by rw [hfr]; exact hz, ?_⟩
    intro tr htr
    rw [hfh] at htr
    exact hh tr htr

/-- One whole tick keeps all rewards and earnings at zero. -/
theorem tick_ZE (cfg : SimConfig) (s : SimState) (h : ZeroEarnings s) :
    ZeroEarnings (tick cfg s) := by
  have h1 : ZeroEarnings (generatePhase cfg s) := by
    intro di d hdi
    exact h di d hdi
  have h2 : ZeroEarnings (updateWaitingPhase (generatePhase cfg s)).1 := by
    intro di d hdi
    exact h1 di d hdi
  have h5 : ZeroEarnings (finalizeAssignments (updateWaitingPhase (generatePhase cfg s)).1
      (processOffers (updateWaitingPhase (generatePhase cfg s)).1
        (proposePhase cfg.policy (updateWaitingPhase (generatePhase cfg s)).1
          (updateWaitingPhase (generatePhase cfg s)).2))) :=
    finalizeFold_ZE _ _ [] [] h2
  have h6 := movePhase_ZE _ h5
  set M := movePhase (finalizeAssignments (updateWaitingPhase (generatePhase cfg s)).1
      (processOffers (updateWaitingPhase (generatePhase cfg s)).1
        (proposePhase cfg.policy (updateWaitingPhase (generatePhase cfg s)).1
          (updateWaitingPhase (generatePhase cfg s)).2))) with hM
  have h7 := mutatePhase_ZE M cfg.rules (cfg.rolls M.time) M.time h6
  intro di d hdi
  exact h7 di d hdi

/-- Iterated ticks keep all rewards and earnings at zero. -/
theorem tickN_ZE (cfg : SimConfig) (n : ℕ) :
    ∀ s : SimState, ZeroEarnings s → ZeroEarnings (tickN cfg n s) := by
  induction n with
  | zero => intro s h; exact h
  | succ n ih =>
    intro s h
    exact ih (tick cfg s) (tick_ZE cfg s h)

/-- Claim C3 (amended): the engine never hands the policy-computed
reward to `assign_request` — stage 5 passes the current time as the
second positional argument and no reward at all, so the compatibility
branch stores `assigned_reward = 0.0`; consequently, starting from a
state with all rewards and earnings zero (as constructed), every
driver's `assigned_reward` stays 0 and every TripRecord written by
`complete_dropoff` carries `earnings = 0`, after any number of ticks. -/
theorem engine_rewards_always_zero (cfg : SimConfig) (s0 : SimState)
    (h : ZeroEarnings s0) (n : ℕ) :
    (∀ (d : Driver) (ri : ℕ) (x : ℝ),
      (d.assign_request_fields ri (some x) none).assigned_reward = 0) ∧
    ZeroEarnings (tickN cfg n s0) :=
  ⟨fun _ _ _ => rfl, tickN_ZE cfg n s0 h⟩

/-- Witness for claim C3's amended statement at a concrete state. -/
theorem engine_rewards_always_zero_witness :
    ZeroEarnings expState ∧
    ((∀ (d : Driver) (ri : ℕ) (x : ℝ),
      (d.assign_request_fields ri (some x) none).assigned_reward = 0) ∧
    ZeroEarnings (tickN emptyCfg 1 expState)) := by
  have hze : ZeroEarnings expState := by
    intro di d hdi
    simp [expState] at hdi
  exact ⟨hze, engine_rewards_always_zero emptyCfg expState hze 1⟩

/-- The driver-to-pickup distance in the finalize scenario is 5. -/
theorem finScenario_pickup_distance :
    finDriver.position.distance_to finReq.pickup = 5 := by
  show (Point.mk 0 0).distance_to (Point.mk 3 4) = 5
  unfold Point.distance_to
  norm_num
  rw [show ((25 : ℝ)) = 5 ^ 2 by norm_num, Real.sqrt_sq (by norm_num : (0:ℝ) ≤ 5)]

/-- The pickup-to-dropoff distance in the finalize scenario is 0. -/
theorem finScenario_trip_distance :
    finReq.pickup.distance_to finReq.dropoff = 0 := by
  show (Point.mk 3 4).distance_to (Point.mk 3 4) = 0
  unfold Point.distance_to
  norm_num

/-- Claim C3 counterexample: in the one-driver/one-request state the
stage-4 offer carries the policy-supplied reward 22.5
(`15 + 1.5 * (5 + 0)`), yet after stage 5 finalizes the accepted pair
the driver holds the request with `assigned_reward = 0` — the reward
is dropped, not stored. -/
theorem finalize_drops_offer_reward :
    offerRewardFor finState 0 0 = some (45 / 2) ∧
    (45 / 2 : ℝ) ≠ 0 ∧
    ∃ d, (finalizeAssignments finState [(0, 0)]).drivers[0]? = some d ∧
      d.assigned_reward = 0 ∧ d.current_request = some 0 := by
  have hdl : finState.drivers[0]? = some finDriver := rfl
  have hrl : finState.requests[0]? = some finReq := rfl
  refine ⟨?_, by norm_num, ?_⟩
  · unfold offerRewardFor
    rw [hdl, hrl]
    dsimp only
    rw [finScenario_pickup_distance, finScenario_trip_distance]
    rw [show (15 : ℝ) + 1.5 * (5 + 0) = 45 / 2 by norm_num]
  · have hskip : ¬((0 : ℕ) ∈ ([] : List ℕ) ∨ (0 : ℕ) ∈ ([] : List ℕ) ∨
        finReq.status = .ASSIGNED) := by
      simp [finReq]
    have hstep := finalizeStep_assign finState [] [] (0, 0) finDriver finReq hdl hrl hskip
    refine ⟨finDriver.assign_request_fields 0 (some ((finState.time : ℤ) : ℝ)) none,
      ?_, rfl, rfl⟩
    show (finalizeAssignments finState [(0, 0)]).drivers[0]? = _
    unfold finalizeAssignments
    rw [List.foldl_cons, hstep, List.foldl_nil]
    exact get?_set_eq_of_lt _ _ _ (by simp [finState])

/-! ### Request evolution across one tick (claim C6) -/

/-- Re-marking collapses: the status markers only overwrite status and
wait, so only the last marker matters. -/
theorem mark_picked_mark_picked (r : Request) (t t2 : ℤ) :
    (r.mark_picked t).mark_picked t2 = r.mark_picked t2 := rfl

theorem mark_picked_mark_delivered (r : Request) (t t2 : ℤ) :
    (r.mark_picked t).mark_delivered t2 = r.mark_delivered t2 := rfl

theorem mark_delivered_mark_picked (r : Request) (t t2 : ℤ) :
    (r.mark_delivered t).mark_picked t2 = r.mark_picked t2 := rfl

theorem mark_delivered_mark_delivered (r : Request) (t t2 : ℤ) :
    (r.mark_delivered t).mark_delivered t2 = r.mark_delivered t2 := rfl

/-- One driver's move turn changes a request slot at most by marking
it PICKED or DELIVERED. -/
theorem moveOne_request (s : SimState) (di k : ℕ) :
    (moveOne s di).requests[k]? = s.requests[k]? ∨
    ∃ r t, s.requests[k]? = some r ∧
      ((moveOne s di).requests[k]? = some (r.mark_picked t) ∨
       (moveOne s di).requests[k]? = some (r.mark_delivered t)) := by
  unfold moveOne
  cases hd0 : s.drivers[di]? with
  | none => exact Or.inl rfl
  | some d0 =>
    dsimp only
    set d1 := d0.step s.requests 1 with hd1def
    set p1 := pickupPhase s.time d1 s.requests with hp1def
    set p2 := dropoffPhase s.time p1.1 p1.2 with hp2def
    have hreq : p2.2.1[k]? = s.requests[k]? ∨
        ∃ r t, s.requests[k]? = some r ∧
          (p2.2.1[k]? = some (r.mark_picked t) ∨
           p2.2.1[k]? = some (r.mark_delivered t)) := by
      have hmid : p1.2[k]? = s.requests[k]? ∨
          ∃ r, s.requests[k]? = some r ∧ p1.2[k]? = some (r.mark_picked s.time) := by
        rcases pickupPhase_cases s.time d1 s.requests with hP | ⟨ri, r, -, -, hr, hP⟩
        · rw [← hp1def] at hP
          rw [hP]
          exact Or.inl rfl
        · rw [← hp1def] at hP
          rw [hP]
          by_cases hik : ri = k
          · subst hik
            exact Or.inr ⟨r, hr, get?_set_eq_of_lt _ _ _ (lt_of_get?_eq_some hr)⟩
          · rw [List.getElem?_set_ne hik]
            exact Or.inl rfl
      rcases dropoffPhase_cases s.time p1.1 p1.2 with ⟨-, hD⟩ | ⟨ri, r, -, hr, -, -, -, hD⟩
      · rw [← hp2def] at hD
        rw [hD]
        rcases hmid with hm | ⟨r, hm, hm2⟩
        · exact Or.inl hm
        · exact Or.inr ⟨r, s.time, hm, Or.inl hm2⟩
      · rw [← hp2def] at hD
        rw [hD]
        by_cases hik : ri = k
        · subst hik
          have hset : (p1.2.set ri (r.mark_delivered s.time))[ri]? =
              some (r.mark_delivered s.time) :=
            get?_set_eq_of_lt _ _ _ (lt_of_get?_eq_some hr)
          rcases hmid with hm | ⟨r2, hm, hm2⟩
          · refine Or.inr ⟨r, s.time, by rw [← hm]; exact hr, Or.inr hset⟩
          · rw [hr] at hm2
            obtain rfl := (Option.some.inj hm2).symm
            refine Or.inr ⟨r2, s.time, hm, Or.inr ?_⟩
            rw [hset, mark_picked_mark_delivered]
        · rw [List.getElem?_set_ne hik]
          rcases hmid with hm | ⟨r2, hm, hm2⟩
          · exact Or.inl hm
          · exact Or.inr ⟨r2, s.time, hm, Or.inl hm2⟩
    cases hx : p2.2.2 with
    | none => exact hreq
    | some ri => exact hreq

/-- Stage 6 changes a request slot at most by marking it PICKED or
DELIVERED. -/
theorem movePhase_request (s : SimState) (k : ℕ) :
    (movePhase s).requests[k]? = s.requests[k]? ∨
    ∃ r t, s.requests[k]? = some r ∧
      ((movePhase s).requests[k]? = some (r.mark_picked t) ∨
       (movePhase s).requests[k]? = some (r.mark_delivered t)) := by
  unfold movePhase
  generalize List.range s.drivers.length = idxs
  induction idxs generalizing s with
  | nil => exact Or.inl rfl
  | cons i t ih =>
    rw [List.foldl_cons]
    rcases ih (moveOne s i) with hm | ⟨r, t2, hm, hm2⟩
    · rcases moveOne_request s i k with h1 | ⟨r, t1, h1, h2⟩
      · exact Or.inl (hm.trans h1)
      · exact Or.inr ⟨r, t1, h1, by rw [← hm] at h2; exact h2⟩
    · rcases moveOne_request s i k with h1 | ⟨r1, t1, h1, h2⟩
      · rw [h1] at hm
        exact Or.inr ⟨r, t2, hm, hm2⟩
      · rcases h2 with h2 | h2
        · rw [h2] at hm
          obtain rfl := Option.some.inj hm
          rcases hm2 with hm2 | hm2
          · rw [mark_picked_mark_picked] at hm2
            exact Or.inr ⟨r1, t2, h1, Or.inl hm2⟩
          · rw [mark_picked_mark_delivered] at hm2
            exact Or.inr ⟨r1, t2, h1, Or.inr hm2⟩
        · rw [h2] at hm
          obtain rfl := Option.some.inj hm
          rcases hm2 with hm2 | hm2
          · rw [mark_delivered_mark_picked] at hm2
            exact Or.inr ⟨r1, t2, h1, Or.inl hm2⟩
          · rw [mark_delivered_mark_delivered] at hm2
            exact Or.inr ⟨r1, t2, h1, Or.inr hm2⟩

/-- The finalize fold leaves untouched every request index that no
accepted pair names. -/
theorem finalizeFold_request_untouched (accepted : List (ℕ × ℕ)) :
    ∀ (st : SimState) (uD uR : List ℕ) (k : ℕ), (∀ p ∈ accepted, p.2 ≠ k) →
      (accepted.foldl finalizeStep (st, uD, uR)).1.requests[k]? =
        st.requests[k]? := by
  induction accepted with
  | nil => intro st uD uR k _; rfl
  | cons p rest ih =>
    intro st uD uR k hne
    rw [List.foldl_cons]
    rcases finalizeStep_cases st uD uR p with he | ⟨d, r, -, -, -, -, -, he⟩
    · rw [he]
      exact ih st uD uR k fun q hq => hne q (List.mem_cons_of_mem _ hq)
    · rw [he]
      rw [ih _ (p.1 :: uD) (p.2 :: uR) k fun q hq => hne q (List.mem_cons_of_mem _ hq)]
      show (st.requests.set p.2 (r.mark_assigned d.id))[k]? = _
      exact List.getElem?_set_ne (hne p (List.mem_cons_self _ _))

/-- The finalize fold changes a request slot at most by marking it
ASSIGNED. -/
theorem finalizeFold_request (accepted : List (ℕ × ℕ)) :
    ∀ (st : SimState) (uD uR : List ℕ) (k : ℕ),
      (accepted.foldl finalizeStep (st, uD, uR)).1.requests[k]? =
        st.requests[k]? ∨
      ∃ r did, st.requests[k]? = some r ∧
        (accepted.foldl finalizeStep (st, uD, uR)).1.requests[k]? =
          some (r.mark_assigned did) := by
  induction accepted with
  | nil => intro st uD uR k; exact Or.inl rfl
  | cons p rest ih =>
    intro st uD uR k
    rw [List.foldl_cons]
    rcases finalizeStep_cases st uD uR p with he | ⟨d, r, -, hr, -, -, -, he⟩
    · rw [he]
      exact ih st uD uR k
    · rw [he]
      by_cases hik : p.2 = k
      · subst hik
        have hset : (st.requests.set p.2 (r.mark_assigned d.id))[p.2]? =
            some (r.mark_assigned d.id) :=
          get?_set_eq_of_lt _ _ _ (lt_of_get?_eq_some hr)
        rcases ih ({ st with
            drivers := st.drivers.set p.1
              (d.assign_request_fields p.2 (some (st.time : ℝ)) none)
            requests := st.requests.set p.2 (r.mark_assigned d.id) } : SimState)
            (p.1 :: uD) (p.2 :: uR) p.2 with hm | ⟨r2, did2, hm, hm2⟩
        · rw [hm]
          exact Or.inr ⟨r, d.id, hr, hset⟩
        · rw [show ({ st with
              drivers := st.drivers.set p.1
                (d.assign_request_fields p.2 (some (st.time : ℝ)) none)
              requests := st.requests.set p.2 (r.mark_assigned d.id) } : SimState).requests
            = st.requests.set p.2 (r.mark_assigned d.id) from rfl, hset] at hm
          obtain rfl := (Option.some.inj hm).symm
          exact Or.inr ⟨r, did2, hr, hm2⟩
      · rcases ih ({ st with
            drivers := st.drivers.set p.1
              (d.assign_request_fields p.2 (some (st.time : ℝ)) none)
            requests := st.requests.set p.2 (r.mark_assigned d.id) } : SimState)
            (p.1 :: uD) (p.2 :: uR) k with hm | ⟨r2, did2, hm, hm2⟩
        · rw [hm]
          show (st.requests.set p.2 (r.mark_assigned d.id))[k]? = _ ∨ _
          rw [List.getElem?_set_ne hik]
          exact Or.inl rfl
        · rw [show ({ st with
              drivers := st.drivers.set p.1
                (d.assign_request_fields p.2 (some (st.time : ℝ)) none)
              requests := st.requests.set p.2 (r.mark_assigned d.id) } : SimState).requests
            = st.requests.set p.2 (r.mark_assigned d.id) from rfl,
            List.getElem?_set_ne hik] at hm
          exact Or.inr ⟨r2, did2, hm, hm2⟩

/-- Stage 6 never touches the clock, the timeout or the expiry
counter. -/
theorem movePhase_frame (s : SimState) :
    (movePhase s).time = s.time ∧
    (movePhase s).timeout = s.timeout ∧
    (movePhase s).expiredCount = s.expiredCount := by
  unfold movePhase
  generalize List.range s.drivers.length = idxs
  induction idxs generalizing s with
  | nil => exact ⟨rfl, rfl, rfl⟩
  | cons i t ih =>
    rw [List.foldl_cons]
    obtain ⟨f1, f2, f3, -, -⟩ := moveOne_frame s i
    obtain ⟨g1, g2, g3⟩ := ih (moveOne s i)
    exact ⟨g1.trans f1, g2.trans f2, g3.trans f3⟩

/-- One tick advances the clock by exactly one, keeps the timeout, and
grows `expired_count` by exactly the number of requests stage 2 newly
expires. -/
theorem tick_frame (cfg : SimConfig) (s : SimState) :
    (tick cfg s).time = s.time + 1 ∧
    (tick cfg s).timeout = s.timeout ∧
    (tick cfg s).expiredCount = s.expiredCount +
      ((generatePhase cfg s).requests.filter
        (newlyExpired s.time s.timeout)).length := by
  obtain ⟨-, hut, huto, -, -, -, hue, -⟩ := updateWaitingPhase_frame (generatePhase cfg s)
  obtain ⟨f1, f2, -, f4, -, -, -⟩ := finalizeFold_frame
    (processOffers (updateWaitingPhase (generatePhase cfg s)).1
      (proposePhase cfg.policy (updateWaitingPhase (generatePhase cfg s)).1
        (updateWaitingPhase (generatePhase cfg s)).2))
    (updateWaitingPhase (generatePhase cfg s)).1 [] []
  obtain ⟨m1, m2, m3⟩ := movePhase_frame
    (finalizeAssignments (updateWaitingPhase (generatePhase cfg s)).1
      (processOffers (updateWaitingPhase (generatePhase cfg s)).1
        (proposePhase cfg.policy (updateWaitingPhase (generatePhase cfg s)).1
          (updateWaitingPhase (generatePhase cfg s)).2)))
  have f1' : (finalizeAssignments (updateWaitingPhase (generatePhase cfg s)).1
      (processOffers (updateWaitingPhase (generatePhase cfg s)).1
        (proposePhase cfg.policy (updateWaitingPhase (generatePhase cfg s)).1
          (updateWaitingPhase (generatePhase cfg s)).2))).time =
      (updateWaitingPhase (generatePhase cfg s)).1.time := f1
  have f2' : (finalizeAssignments (updateWaitingPhase (generatePhase cfg s)).1
      (processOffers (updateWaitingPhase (generatePhase cfg s)).1
        (proposePhase cfg.policy (updateWaitingPhase (generatePhase cfg s)).1
          (updateWaitingPhase (generatePhase cfg s)).2))).timeout =
      (updateWaitingPhase (generatePhase cfg s)).1.timeout := f2
  have f4' : (finalizeAssignments (updateWaitingPhase (generatePhase cfg s)).1
      (processOffers (updateWaitingPhase (generatePhase cfg s)).1
        (proposePhase cfg.policy (updateWaitingPhase (generatePhase cfg s)).1
          (updateWaitingPhase (generatePhase cfg s)).2))).expiredCount =
      (updateWaitingPhase (generatePhase cfg s)).1.expiredCount := f4
  refine ⟨?_, ?_, ?_⟩
  · show (movePhase (finalizeAssignments (updateWaitingPhase (generatePhase cfg s)).1
      (processOffers (updateWaitingPhase (generatePhase cfg s)).1
        (proposePhase cfg.policy (updateWaitingPhase (generatePhase cfg s)).1
          (updateWaitingPhase (generatePhase cfg s)).2)))).time + 1 = s.time + 1
    rw [m1, f1', hut]
    rfl
  · show (movePhase (finalizeAssignments (updateWaitingPhase (generatePhase cfg s)).1
      (processOffers (updateWaitingPhase (generatePhase cfg s)).1
        (proposePhase cfg.policy (updateWaitingPhase (generatePhase cfg s)).1
          (updateWaitingPhase (generatePhase cfg s)).2)))).timeout = s.timeout
    rw [m2, f2', huto]
    rfl
  · show (movePhase (finalizeAssignments (updateWaitingPhase (generatePhase cfg s)).1
      (processOffers (updateWaitingPhase (generatePhase cfg s)).1
        (proposePhase cfg.policy (updateWaitingPhase (generatePhase cfg s)).1
          (updateWaitingPhase (generatePhase cfg s)).2)))).expiredCount =
      s.expiredCount + ((generatePhase cfg s).requests.filter
        (newlyExpired s.time s.timeout)).length
    rw [m3, f4', hue]
    rfl

/-- Peeling a tick off the back of an iterated run. -/
theorem tickN_succ (cfg : SimConfig) (m : ℕ) :
    ∀ s : SimState, tickN cfg (m + 1) s = tick cfg (tickN cfg m s) := by
  induction m with
  | zero => intro s; rfl
  | succ m ih =>
    intro s
    rw [show tickN cfg (m + 1 + 1) s = tickN cfg (m + 1) (tick cfg s) from rfl, ih,
      show tickN cfg (m + 1) s = tickN cfg m (tick cfg s) from rfl]

/-- After `n` ticks the clock reads `start + n` and the timeout is
unchanged. -/
theorem tickN_clock (cfg : SimConfig) (n : ℕ) :
    ∀ s : SimState, (tickN cfg n s).time = s.time + n ∧
      (tickN cfg n s).timeout = s.timeout := by
  induction n with
  | zero =>
    intro s
    refine ⟨?_, rfl⟩
    rw [show tickN cfg 0 s = s from rfl]
    simp
  | succ n ih =>
    intro s
    obtain ⟨h1, h2⟩ := ih (tick cfg s)
    obtain ⟨t1, t2, -⟩ := tick_frame cfg s
    constructor
    · rw [show tickN cfg (n + 1) s = tickN cfg n (tick cfg s) from rfl, h1, t1]
      push_cast
      ring
    · rw [show tickN cfg (n + 1) s = tickN cfg n (tick cfg s) from rfl, h2, t2]

/-- `expireCheck` never changes a request's creation time. -/
theorem expireCheck_creation (time timeout : ℤ) (r : Request) :
    (expireCheck time timeout r).creation_time = r.creation_time := by
  by_cases h : r.status = .WAITING
  · by_cases h2 : timeout < (r.update_wait time).wait_time
    · unfold expireCheck
      rw [if_pos h, if_pos h2]
      rfl
    · unfold expireCheck
      rw [if_pos h, if_neg h2]
      rfl
  · rw [expireCheck_not_waiting _ _ _ h]

/-- Through stages 5 and 6 a tracked request slot either keeps its
stage-2 value or moves along the service pipeline (ASSIGNED, PICKED,
DELIVERED); when no accepted pair names the slot, stage 5 cannot touch
it, leaving only the stage-6 outcomes. -/
theorem stage56_track (u1 : SimState) (acc : List (ℕ × ℕ)) (k : ℕ) (r2 : Request)
    (hk2 : u1.requests[k]? = some r2) :
    ∃ r1, (movePhase (finalizeAssignments u1 acc)).requests[k]? = some r1 ∧
      r1.creation_time = r2.creation_time ∧
      (r1 = r2 ∨ r1.status = .ASSIGNED ∨ r1.status = .PICKED ∨
        r1.status = .DELIVERED) ∧
      ((∀ p ∈ acc, p.2 ≠ k) →
        (r1 = r2 ∨ r1.status = .PICKED ∨ r1.status = .DELIVERED)) := by
  have hfin : (finalizeAssignments u1 acc).requests[k]? = some r2 ∨
      ∃ did, (finalizeAssignments u1 acc).requests[k]? =
        some (r2.mark_assigned did) := by
    rcases finalizeFold_request acc u1 [] [] k with hm | ⟨r, did, hm, hm2⟩
    · left
      have hm' : (finalizeAssignments u1 acc).requests[k]? = u1.requests[k]? := hm
      exact hm'.trans hk2
    · rw [hk2] at hm
      obtain rfl := (Option.some.inj hm).symm
      exact Or.inr ⟨did, hm2⟩
  have hunt : (∀ p ∈ acc, p.2 ≠ k) →
      (finalizeAssignments u1 acc).requests[k]? = some r2 := by
    intro hnk
    have hm' : (finalizeAssignments u1 acc).requests[k]? = u1.requests[k]? :=
      finalizeFold_request_untouched acc u1 [] [] k hnk
    exact hm'.trans hk2
  rcases movePhase_request (finalizeAssignments u1 acc) k with hm | ⟨r, t, hm, hm2⟩
  · rcases hfin with h5 | ⟨did, h5⟩
    · exact ⟨r2, hm.trans h5, rfl, Or.inl rfl, fun _ => Or.inl rfl⟩
    · refine ⟨r2.mark_assigned did, hm.trans h5, rfl, Or.inr (Or.inl rfl), ?_⟩
      intro hnk
      left
      exact (Option.some.inj ((hunt hnk).symm.trans h5)).symm
  · have hcr : r.creation_time = r2.creation_time := by
      rcases hfin with h5 | ⟨did, h5⟩
      · rw [hm] at h5
        obtain rfl := Option.some.inj h5
        rfl
      · rw [hm] at h5
        obtain rfl := Option.some.inj h5
        rfl
    rcases hm2 with hm2 | hm2
    · exact ⟨r.mark_picked t, hm2, hcr, Or.inr (Or.inr (Or.inl rfl)),
        fun _ => Or.inr (Or.inl rfl)⟩
    · exact ⟨r.mark_delivered t, hm2, hcr, Or.inr (Or.inr (Or.inr rfl)),
        fun _ => Or.inr (Or.inr rfl)⟩

/-- One tick's effect on a tracked request slot.  The creation time is
always preserved.  A WAITING request that is not yet overdue on this
tick's clock can only stay WAITING or enter the service pipeline; a
WAITING request that is overdue is expired by stage 2, is invisible to
stage 5 (it left the waiting list), and can afterwards only be picked
or delivered by a driver already holding the slot; an EXPIRED request
is likewise never resurrected to WAITING or ASSIGNED. -/
theorem tick_request (cfg : SimConfig) (s : SimState) (k : ℕ) (r0 : Request)
    (hk : s.requests[k]? = some r0) :
    ∃ r1, (tick cfg s).requests[k]? = some r1 ∧
      r1.creation_time = r0.creation_time ∧
      (r0.status = .WAITING → ¬ s.timeout < s.time - r0.creation_time →
        (r1.status = .WAITING ∨ r1.status = .ASSIGNED ∨
         r1.status = .PICKED ∨ r1.status = .DELIVERED)) ∧
      (r0.status = .WAITING → s.timeout < s.time - r0.creation_time →
        (r1.status = .EXPIRED ∨ r1.status = .PICKED ∨ r1.status = .DELIVERED)) ∧
      (r0.status = .EXPIRED →
        (r1.status = .EXPIRED ∨ r1.status = .PICKED ∨ r1.status = .DELIVERED)) := by
  have hk1 : (generatePhase cfg s).requests[k]? = some r0 := by
    rw [(generatePhase_frame cfg s).2.2.2.2.2.2.2 k (lt_of_get?_eq_some hk)]
    exact hk
  have hk2 : (updateWaitingPhase (generatePhase cfg s)).1.requests[k]? =
      some (expireCheck s.time s.timeout r0) := by
    have h := (updateWaitingPhase_frame (generatePhase cfg s)).2.2.2.2.2.2.2 k
    rw [hk1] at h
    exact h
  have hstW : r0.status = .WAITING → ¬ s.timeout < s.time - r0.creation_time →
      (expireCheck s.time s.timeout r0).status = .WAITING := fun hW hov =>
    (expireCheck_still_waiting _ _ _ (by unfold stillWaiting; simp [hW, hov])).2
  have hstE1 : r0.status = .WAITING → s.timeout < s.time - r0.creation_time →
      (expireCheck s.time s.timeout r0).status = .EXPIRED := fun hW hov => by
    rw [expireCheck_newly_expired s.time s.timeout r0
      (by unfold newlyExpired; simp [hW, hov])]
    rfl
  have hstE2 : r0.status = .EXPIRED →
      (expireCheck s.time s.timeout r0).status = .EXPIRED := fun hE => by
    rw [expireCheck_not_waiting s.time s.timeout r0 (by rw [hE]; decide)]
    exact hE
  have hswF1 : r0.status = .WAITING → s.timeout < s.time - r0.creation_time →
      stillWaiting s.time s.timeout r0 = false := fun hW hov => by
    unfold stillWaiting
    simp [hov]
  have hswF2 : r0.status = .EXPIRED →
      stillWaiting s.time s.timeout r0 = false := fun hE => by
    unfold stillWaiting
    rw [hE]
    rfl
  have hgood : GoodProposals (updateWaitingPhase (generatePhase cfg s)).1
      (updateWaitingPhase (generatePhase cfg s)).2
      (processOffers (updateWaitingPhase (generatePhase cfg s)).1
        (proposePhase cfg.policy (updateWaitingPhase (generatePhase cfg s)).1
          (updateWaitingPhase (generatePhase cfg s)).2)) :=
    processOffers_good _ _ _ (proposePhase_good cfg.policy _ _
      (updateWaitingPhase_waiting (generatePhase cfg s)).1)
  have hnotw : stillWaiting s.time s.timeout r0 = false →
      ∀ p ∈ (processOffers (updateWaitingPhase (generatePhase cfg s)).1
        (proposePhase cfg.policy (updateWaitingPhase (generatePhase cfg s)).1
          (updateWaitingPhase (generatePhase cfg s)).2)), p.2 ≠ k := by
    intro hns p hp hpk
    have hw : p.2 ∈ (updateWaitingPhase (generatePhase cfg s)).2 := (hgood.2 p hp).2
    rw [hpk] at hw
    obtain ⟨r, hr, hsw⟩ := (updateWaitingPhase_waiting (generatePhase cfg s)).2 k hw
    rw [hk1] at hr
    have hsw2 : stillWaiting (generatePhase cfg s).time (generatePhase cfg s).timeout
        r0 = true := by
      rw [Option.some.inj hr]
      exact hsw
    have hsw' : stillWaiting s.time s.timeout r0 = true := hsw2
    rw [hns] at hsw'
    exact absurd hsw' (by decide)
  obtain ⟨r1, hr1, hcr, hshape, hshape2⟩ := stage56_track
    (updateWaitingPhase (generatePhase cfg s)).1
    (processOffers (updateWaitingPhase (generatePhase cfg s)).1
      (proposePhase cfg.policy (updateWaitingPhase (generatePhase cfg s)).1
        (updateWaitingPhase (generatePhase cfg s)).2))
    k (expireCheck s.time s.timeout r0) hk2
  have hr1' : (tick cfg s).requests[k]? = some r1 := hr1
  refine ⟨r1, hr1', hcr.trans (expireCheck_creation s.time s.timeout r0),
    ?_, ?_, ?_⟩
  · intro hW hov
    rcases hshape with h | h | h | h
    · left
      rw [h]
      exact hstW hW hov
    · exact Or.inr (Or.inl h)
    · exact Or.inr (Or.inr (Or.inl h))
    · exact Or.inr (Or.inr (Or.inr h))
  · intro hW hov
    rcases hshape2 (hnotw (hswF1 hW hov)) with h | h | h
    · left
      rw [h]
      exact hstE1 hW hov
    · exact Or.inr (Or.inl h)
    · exact Or.inr (Or.inr h)
  · intro hE
    rcases hshape2 (hnotw (hswF2 hE)) with h | h | h
    · left
      rw [h]
      exact hstE2 hE
    · exact Or.inr (Or.inl h)
    · exact Or.inr (Or.inr h)

/-- Claim C6: expiry threshold timing.  Take a WAITING request at slot
`k` with creation time `c` in a start state, and let `mstar` be the
first number of ticks after which the stage-2 clock satisfies
`time - c > timeout` (hypotheses `hfirst`/`hbefore`).  If the request
is never served — after every number of ticks its status is WAITING or
EXPIRED — then it stays WAITING through the first `mstar` ticks, is
EXPIRED from tick `mstar + 1` on, stage 2 expires slot `k` exactly on
the run's tick number `mstar` and on no other tick, and every tick
grows `expired_count` by exactly the number of requests newly expired
on that tick (so this request contributes exactly once). -/
theorem request_expiry_first_overdue_tick (cfg : SimConfig) (s0 : SimState)
    (k : ℕ) (r0 : Request) (mstar : ℕ)
    (hk : s0.requests[k]? = some r0) (hst : r0.status = .WAITING)
    (hfirst : s0.timeout < s0.time + mstar - r0.creation_time)
    (hbefore : ∀ m : ℕ, m < mstar → ¬ s0.timeout < s0.time + m - r0.creation_time)
    (hnever : ∀ (m : ℕ) (r : Request), (tickN cfg m s0).requests[k]? = some r →
      r.status = .WAITING ∨ r.status = .EXPIRED) :
    (∀ m : ℕ, m ≤ mstar → ∃ r, (tickN cfg m s0).requests[k]? = some r ∧
      r.status = .WAITING ∧ r.creation_time = r0.creation_time) ∧
    (∀ m : ℕ, mstar < m → ∃ r, (tickN cfg m s0).requests[k]? = some r ∧
      r.status = .EXPIRED ∧ r.creation_time = r0.creation_time) ∧
    (∀ m : ℕ, tickExpiresIdx cfg (tickN cfg m s0) k ↔ m = mstar) ∧
    (∀ m : ℕ, (tickN cfg (m + 1) s0).expiredCount =
      (tickN cfg m s0).expiredCount +
        ((generatePhase cfg (tickN cfg m s0)).requests.filter
          (newlyExpired (tickN cfg m s0).time (tickN cfg m s0).timeout)).length) := by
  have hmain : ∀ m : ℕ, m ≤ mstar → ∃ r, (tickN cfg m s0).requests[k]? = some r ∧
      r.status = .WAITING ∧ r.creation_time = r0.creation_time := by
    intro m
    induction m with
    | zero => intro _; exact ⟨r0, hk, hst, rfl⟩
    | succ m ih =>
      intro hle
      have hm : m < mstar := Nat.lt_of_succ_le hle
      obtain ⟨r, hr, hrW, hrc⟩ := ih (Nat.le_of_lt hm)
      obtain ⟨r1, hr1, hc1, hW1, -, -⟩ := tick_request cfg (tickN cfg m s0) k r hr
      rw [← tickN_succ cfg m s0] at hr1
      have hov : ¬ (tickN cfg m s0).timeout <
          (tickN cfg m s0).time - r.creation_time := by
        obtain ⟨ht, hto⟩ := tickN_clock cfg m s0
        rw [ht, hto, hrc]
        exact hbefore m hm
      have hWE := hnever (m + 1) r1 hr1
      have hr1W : r1.status = .WAITING := by
        rcases hW1 hrW hov with h | h | h | h
        · exact h
        · rcases hWE with h2 | h2 <;> rw [h] at h2 <;> exact absurd h2 (by decide)
        · rcases hWE with h2 | h2 <;> rw [h] at h2 <;> exact absurd h2 (by decide)
        · rcases hWE with h2 | h2 <;> rw [h] at h2 <;> exact absurd h2 (by decide)
      exact ⟨r1, hr1, hr1W, hc1.trans hrc⟩
  have hafter : ∀ j : ℕ, ∃ r,
      (tickN cfg (mstar + 1 + j) s0).requests[k]? = some r ∧
      r.status = .EXPIRED ∧ r.creation_time = r0.creation_time := by
    intro j
    induction j with
    | zero =>
      obtain ⟨r, hr, hrW, hrc⟩ := hmain mstar (le_refl _)
      obtain ⟨r1, hr1, hc1, -, hW2, -⟩ := tick_request cfg (tickN cfg mstar s0) k r hr
      rw [← tickN_succ cfg mstar s0] at hr1
      have hov : (tickN cfg mstar s0).timeout <
          (tickN cfg mstar s0).time - r.creation_time := by
        obtain ⟨ht, hto⟩ := tickN_clock cfg mstar s0
        rw [ht, hto, hrc]
        exact hfirst
      have hWE := hnever (mstar + 1) r1 hr1
      have hr1E : r1.status = .EXPIRED := by
        rcases hW2 hrW hov with h | h | h
        · exact h
        · rcases hWE with h2 | h2 <;> rw [h] at h2 <;> exact absurd h2 (by decide)
        · rcases hWE with h2 | h2 <;> rw [h] at h2 <;> exact absurd h2 (by decide)
      exact ⟨r1, hr1, hr1E, hc1.trans hrc⟩
    | succ j ih =>
      obtain ⟨r, hr, hrE, hrc⟩ := ih
      obtain ⟨r1, hr1, hc1, -, -, hE⟩ :=
        tick_request cfg (tickN cfg (mstar + 1 + j) s0) k r hr
      rw [← tickN_succ cfg (mstar + 1 + j) s0] at hr1
      have hWE := hnever (mstar + 1 + j + 1) r1 hr1
      have hr1E : r1.status = .EXPIRED := by
        rcases hE hrE with h | h | h
        · exact h
        · rcases hWE with h2 | h2 <;> rw [h] at h2 <;> exact absurd h2 (by decide)
        · rcases hWE with h2 | h2 <;> rw [h] at h2 <;> exact absurd h2 (by decide)
      exact ⟨r1, hr1, hr1E, hc1.trans hrc⟩
  have hlate : ∀ m : ℕ, mstar < m →
      ∃ r, (tickN cfg m s0).requests[k]? = some r ∧
        r.status = .EXPIRED ∧ r.creation_time = r0.creation_time := by
    intro m hm
    obtain ⟨j, rfl⟩ : ∃ j, m = mstar + 1 + j := ⟨m - (mstar + 1), by omega⟩
    exact hafter j
  refine ⟨hmain, hlate, ?_, ?_⟩
  · intro m
    obtain ⟨ht, hto⟩ := tickN_clock cfg m s0
    constructor
    · rintro ⟨r, hr, hne⟩
      by_contra hne2
      rcases Nat.lt_or_ge m mstar with hlt | hge
      · obtain ⟨r2, hr2, hW, hc⟩ := hmain m (Nat.le_of_lt hlt)
        have hg : (generatePhase cfg (tickN cfg m s0)).requests[k]? = some r2 := by
          rw [(generatePhase_frame cfg (tickN cfg m s0)).2.2.2.2.2.2.2 k
            (lt_of_get?_eq_some hr2)]
          exact hr2
        rw [hg] at hr
        unfold newlyExpired at hne
        rw [Bool.and_eq_true, decide_eq_true_eq, decide_eq_true_eq] at hne
        have hne3 := hne.2
        rw [← Option.some.inj hr, ht, hto, hc] at hne3
        exact hbefore m hlt hne3
      · have hgt : mstar < m := by omega
        obtain ⟨r2, hr2, hE, hc⟩ := hlate m hgt
        have hg : (generatePhase cfg (tickN cfg m s0)).requests[k]? = some r2 := by
          rw [(generatePhase_frame cfg (tickN cfg m s0)).2.2.2.2.2.2.2 k
            (lt_of_get?_eq_some hr2)]
          exact hr2
        rw [hg] at hr
        unfold newlyExpired at hne
        rw [Bool.and_eq_true, decide_eq_true_eq, decide_eq_true_eq] at hne
        have hne3 := hne.1
        rw [← Option.some.inj hr, hE] at hne3
        exact absurd hne3 (by decide)
    · rintro rfl
      obtain ⟨r2, hr2, hW, hc⟩ := hmain m (le_refl _)
      have hg : (generatePhase cfg (tickN cfg m s0)).requests[k]? = some r2 := by
        rw [(generatePhase_frame cfg (tickN cfg m s0)).2.2.2.2.2.2.2 k
          (lt_of_get?_eq_some hr2)]
        exact hr2
      refine ⟨r2, hg, ?_⟩
      unfold newlyExpired
      rw [Bool.and_eq_true, decide_eq_true_eq, decide_eq_true_eq]
      refine ⟨hW, ?_⟩
      rw [ht, hto, hc]
      exact hfirst
  · intro m
    rw [tickN_succ cfg m s0]
    exact (tick_frame cfg (tickN cfg m s0)).2.2

/-- With no drivers in the arena, stage 5 is the identity whatever the
accepted list says. -/
theorem finalizeFold_drivers_nil (accepted : List (ℕ × ℕ)) :
    ∀ (st : SimState) (uD uR : List ℕ), st.drivers = [] →
      (accepted.foldl finalizeStep (st, uD, uR)).1 = st := by
  induction accepted with
  | nil => intro st uD uR _; rfl
  | cons p rest ih =>
    intro st uD uR hnil
    rw [List.foldl_cons]
    rcases finalizeStep_cases st uD uR p with he | ⟨d, r, hd, -, -, -, -, -⟩
    · rw [he]
      exact ih st uD uR hnil
    · rw [hnil] at hd
      simp at hd

/-- With no drivers in the arena, stage 6 is the identity. -/
theorem movePhase_drivers_nil (s : SimState) (h : s.drivers = []) :
    movePhase s = s := by
  unfold movePhase
  rw [h]
  rfl

/-- A driverless tick only generates, runs the waiting-time update and
advances the clock: the driver list stays empty and every request slot
is the stage-2 image of its post-generation value. -/
theorem tick_nil_drivers (cfg : SimConfig) (s : SimState) (h : s.drivers = []) :
    (tick cfg s).drivers = [] ∧
    ∀ i : ℕ, (tick cfg s).requests[i]? =
      ((generatePhase cfg s).requests[i]?).map (expireCheck s.time s.timeout) := by
  have h2 : (updateWaitingPhase (generatePhase cfg s)).1.drivers = [] := h
  have h5 : finalizeAssignments (updateWaitingPhase (generatePhase cfg s)).1
      (processOffers (updateWaitingPhase (generatePhase cfg s)).1
        (proposePhase cfg.policy (updateWaitingPhase (generatePhase cfg s)).1
          (updateWaitingPhase (generatePhase cfg s)).2)) =
      (updateWaitingPhase (generatePhase cfg s)).1 :=
    finalizeFold_drivers_nil _ _ [] [] h2
  have h6 : movePhase (finalizeAssignments (updateWaitingPhase (generatePhase cfg s)).1
      (processOffers (updateWaitingPhase (generatePhase cfg s)).1
        (proposePhase cfg.policy (updateWaitingPhase (generatePhase cfg s)).1
          (updateWaitingPhase (generatePhase cfg s)).2))) =
      finalizeAssignments (updateWaitingPhase (generatePhase cfg s)).1
      (processOffers (updateWaitingPhase (generatePhase cfg s)).1
        (proposePhase cfg.policy (updateWaitingPhase (generatePhase cfg s)).1
          (updateWaitingPhase (generatePhase cfg s)).2)) := by
    apply movePhase_drivers_nil
    rw [h5]
    exact h2
  constructor
  · show (mutatePhase cfg.rules
      (cfg.rolls (movePhase (finalizeAssignments (updateWaitingPhase
        (generatePhase cfg s)).1
        (processOffers (updateWaitingPhase (generatePhase cfg s)).1
          (proposePhase cfg.policy (updateWaitingPhase (generatePhase cfg s)).1
            (updateWaitingPhase (generatePhase cfg s)).2)))).time)
      (movePhase (finalizeAssignments (updateWaitingPhase (generatePhase cfg s)).1
        (processOffers (updateWaitingPhase (generatePhase cfg s)).1
          (proposePhase cfg.policy (updateWaitingPhase (generatePhase cfg s)).1
            (updateWaitingPhase (generatePhase cfg s)).2)))).time
      (movePhase (finalizeAssignments (updateWaitingPhase (generatePhase cfg s)).1
        (processOffers (updateWaitingPhase (generatePhase cfg s)).1
          (proposePhase cfg.policy (updateWaitingPhase (generatePhase cfg s)).1
            (updateWaitingPhase (generatePhase cfg s)).2)))).drivers) = []
    rw [h6, h5, h2]
    rfl
  · intro i
    show (movePhase (finalizeAssignments (updateWaitingPhase (generatePhase cfg s)).1
      (processOffers (updateWaitingPhase (generatePhase cfg s)).1
        (proposePhase cfg.policy (updateWaitingPhase (generatePhase cfg s)).1
          (updateWaitingPhase (generatePhase cfg s)).2)))).requests[i]? = _
    rw [h6, h5]
    exact (updateWaitingPhase_frame (generatePhase cfg s)).2.2.2.2.2.2.2 i

/-- `expireCheck` keeps a request inside the WAITING/EXPIRED pair. -/
theorem expireCheck_status_WE (time timeout : ℤ) (r : Request)
    (h : r.status = .WAITING ∨ r.status = .EXPIRED) :
    (expireCheck time timeout r).status = .WAITING ∨
    (expireCheck time timeout r).status = .EXPIRED := by
  rcases h with h | h
  · by_cases h2 : timeout < time - r.creation_time
    · right
      rw [expireCheck_newly_expired time timeout r
        (by unfold newlyExpired; simp [h, h2])]
      rfl
    · left
      exact (expireCheck_still_waiting time timeout r
        (by unfold stillWaiting; simp [h, h2])).2
  · right
    rw [expireCheck_not_waiting time timeout r (by rw [h]; decide)]
    exact h

/-- In the driverless expiry scenario the tracked request always
resolves, is WAITING or EXPIRED, and the driver list stays empty. -/
theorem expState_track (m : ℕ) :
    ∃ r, (tickN emptyCfg m expState).requests[0]? = some r ∧
      (r.status = .WAITING ∨ r.status = .EXPIRED) ∧
      (tickN emptyCfg m expState).drivers = [] := by
  induction m with
  | zero => exact ⟨expReq, rfl, Or.inl rfl, rfl⟩
  | succ m ih =>
    obtain ⟨r, hr, hWE, hnil⟩ := ih
    obtain ⟨hd, hlook⟩ := tick_nil_drivers emptyCfg (tickN emptyCfg m expState) hnil
    have hg : (generatePhase emptyCfg (tickN emptyCfg m expState)).requests[0]? =
        some r := by
      rw [(generatePhase_frame emptyCfg (tickN emptyCfg m expState)).2.2.2.2.2.2.2 0
        (lt_of_get?_eq_some hr)]
      exact hr
    refine ⟨expireCheck (tickN emptyCfg m expState).time
      (tickN emptyCfg m expState).timeout r, ?_, ?_, ?_⟩
    · rw [tickN_succ emptyCfg m expState, hlook 0, hg]
      rfl
    · exact expireCheck_status_WE _ _ r hWE
    · rw [tickN_succ emptyCfg m expState]
      exact hd

/-- Witness for claim C6 at the driverless scenario: `expReq` is
created at time 0 with timeout 1, so the first overdue tick is the
third one (`mstar = 2`: `2 - 0 > 1`). -/
theorem request_expiry_first_overdue_tick_witness :
    (∀ m : ℕ, m ≤ 2 → ∃ r, (tickN emptyCfg m expState).requests[0]? = some r ∧
      r.status = .WAITING ∧ r.creation_time = expReq.creation_time) ∧
    (∀ m : ℕ, 2 < m → ∃ r, (tickN emptyCfg m expState).requests[0]? = some r ∧
      r.status = .EXPIRED ∧ r.creation_time = expReq.creation_time) ∧
    (∀ m : ℕ, tickExpiresIdx emptyCfg (tickN emptyCfg m expState) 0 ↔ m = 2) ∧
    (∀ m : ℕ, (tickN emptyCfg (m + 1) expState).expiredCount =
      (tickN emptyCfg m expState).expiredCount +
        ((generatePhase emptyCfg (tickN emptyCfg m expState)).requests.filter
          (newlyExpired (tickN emptyCfg m expState).time
            (tickN emptyCfg m expState).timeout)).length) :=
  request_expiry_first_overdue_tick emptyCfg expState 0 expReq 2 rfl rfl
    (by decide)
    (by
      intro m hm
      simp only [expState, expReq]
      omega)
    (fun m r hr => by
      obtain ⟨r2, hr2, hWE, -⟩ := expState_track m
      rw [hr2] at hr
      rw [← Option.some.inj hr]
      exact hWE)

/-! ### Concrete evaluation of the global-greedy policy (claim C8) -/

/-- Driver A (list position 0) is at distance 1 from the request. -/
theorem ggDistA : ggDriverA.position.distance_to ggReq.pickup = 1 := by
  show Real.sqrt (((0 : ℝ) - 1) ^ 2 + ((0 : ℝ) - 0) ^ 2) = 1
  rw [show ((0 : ℝ) - 1) ^ 2 + ((0 : ℝ) - 0) ^ 2 = 1 by norm_num, Real.sqrt_one]

/-- Driver B (list position 1) is at the same distance 1. -/
theorem ggDistB : ggDriverB.position.distance_to ggReq.pickup = 1 := by
  show Real.sqrt (((0 : ℝ) - 1) ^ 2 + ((0 : ℝ) - 0) ^ 2) = 1
  rw [show ((0 : ℝ) - 1) ^ 2 + ((0 : ℝ) - 0) ^ 2 = 1 by norm_num, Real.sqrt_one]

/-- The source candidate tuples for the two-driver scenario. -/
theorem ggCombos_eval : ggCombos [ggDriverA, ggDriverB] ggWaiting =
    [((1 : ℝ), 0, 0), ((1 : ℝ), 1, 0)] := by
  rw [show ggCombos [ggDriverA, ggDriverB] ggWaiting =
    [(ggDriverA.position.distance_to ggReq.pickup, 0, 0),
     (ggDriverB.position.distance_to ggReq.pickup, 1, 0)] from rfl, ggDistA, ggDistB]

/-- The equal distances are not a sort-crashing tie: the driver
indices 0 and 1 already separate the tuples. -/
theorem ggNoTie : ¬ ggTie [((1 : ℝ), 0, 0), ((1 : ℝ), 1, 0)] := by
  unfold ggTie
  rw [not_not]
  refine List.Pairwise.cons ?_ ?_
  · intro b hb
    rw [List.mem_singleton] at hb
    subst hb
    intro hcon
    exact absurd hcon.2 (by decide)
  · simp

open Classical in
/-- Sorting the source tuples by `(distance, driver_index)` keeps the
list order: position 0 wins the distance tie. -/
theorem ggSort_eval : List.insertionSort comboLE
    [((1 : ℝ), 0, 0), ((1 : ℝ), 1, 0)] =
    [((1 : ℝ), 0, 0), ((1 : ℝ), 1, 0)] := by
  have hle : comboLE ((1 : ℝ), 0, 0) ((1 : ℝ), 1, 0) := Or.inr ⟨rfl, by norm_num⟩
  simp only [List.insertionSort, List.orderedInsert]
  rw [if_pos hle]

open Classical in
/-- The shipped policy pairs the request with list position 0 — the
driver whose id is 5. -/
theorem ggAssign_eval :
    globalGreedyAssign [ggDriverA, ggDriverB] ggWaiting = some [(0, 0)] := by
  simp only [globalGreedyAssign]
  rw [ggCombos_eval, if_neg ggNoTie, ggSort_eval]
  rfl

/-- The claimed candidate tuples carry the driver ids 5 and 1. -/
theorem ggClaimedCombos_eval :
    (([ggDriverA, ggDriverB].enum.filter fun p => p.2.status = .IDLE).flatMap fun p =>
      ggWaiting.map fun q =>
        ((p.2.position.distance_to q.2.pickup, p.2.id, q.2.id), p.1, q.1)) =
    [(((1 : ℝ), (5 : ℤ), (1 : ℤ)), 0, 0), (((1 : ℝ), (1 : ℤ), (1 : ℤ)), 1, 0)] := by
  rw [show (([ggDriverA, ggDriverB].enum.filter fun p =>
      p.2.status = .IDLE).flatMap fun p =>
      ggWaiting.map fun q =>
        ((p.2.position.distance_to q.2.pickup, p.2.id, q.2.id), p.1, q.1)) =
    [((ggDriverA.position.distance_to ggReq.pickup, (5 : ℤ), (1 : ℤ)), 0, 0),
     ((ggDriverB.position.distance_to ggReq.pickup, (1 : ℤ), (1 : ℤ)), 1, 0)]
    from rfl, ggDistA, ggDistB]

/-- Under the claimed `(distance, driver_id, request_id)` key, id 5 at
position 0 does NOT sort before id 1 at position 1. -/
theorem ggClaimedNotLE :
    ¬ comboLEC (((1 : ℝ), (5 : ℤ), (1 : ℤ)), 0, 0)
      (((1 : ℝ), (1 : ℤ), (1 : ℤ)), 1, 0) := by
  intro h
  unfold comboLEC comboKeyLEC at h
  rcases h with h | ⟨-, h⟩
  · exact absurd h (by norm_num)
  · rcases h with h | ⟨h, -⟩
    · exact absurd h (by norm_num)
    · exact absurd h (by norm_num)

open Classical in
/-- Sorting by the claimed key swaps the two candidates. -/
theorem ggClaimedSort_eval : List.insertionSort comboLEC
    [(((1 : ℝ), (5 : ℤ), (1 : ℤ)), 0, 0), (((1 : ℝ), (1 : ℤ), (1 : ℤ)), 1, 0)] =
    [(((1 : ℝ), (1 : ℤ), (1 : ℤ)), 1, 0), (((1 : ℝ), (5 : ℤ), (1 : ℤ)), 0, 0)] := by
  simp only [List.insertionSort, List.orderedInsert]
  rw [if_neg ggClaimedNotLE]

open Classical in
/-- The algorithm the claim describes pairs the request with list
position 1 — the driver whose id is 1. -/
theorem ggClaimed_eval :
    globalGreedyAssignClaimed [ggDriverA, ggDriverB] ggWaiting = [(1, 0)] := by
  simp only [globalGreedyAssignClaimed]
  rw [ggClaimedCombos_eval, ggClaimedSort_eval]
  rfl

/-- Counterexample to claim C8: two IDLE drivers at the same distance
from one request.  Python sorts tuples
`(distance, driver_index, driver, request)`, so a distance tie is
broken by the POSITION in the drivers list, not by `driver_id`: the
shipped code assigns list position 0 (the driver with id 5), while the
claim's `(distance, driver_id, request_id)` key would assign list
position 1 (the driver with id 1). -/
theorem globalGreedy_sort_key_not_ids :
    globalGreedyAssign [ggDriverA, ggDriverB] ggWaiting = some [(0, 0)] ∧
    globalGreedyAssignClaimed [ggDriverA, ggDriverB] ggWaiting = [(1, 0)] ∧
    ggDriverA.id = 5 ∧ ggDriverB.id = 1 ∧
    ((0, 0) : ℕ × ℕ) ≠ (1, 0) :=
  ⟨ggAssign_eval, ggClaimed_eval, rfl, rfl, by decide⟩

open Classical in
/-- Claim C8 (amended): `GlobalGreedyPolicy.assign` builds the full
cross product of IDLE drivers and all given requests, sorts it
ascending by the key `(distance, driver_index)` — the enumeration
position in the drivers list, not `driver_id`; a duplicate
`(distance, driver_index)` key makes Python compare raw `Request`
objects and raise an uncaught `TypeError` (modelled as `none`) — and
then greedily accepts pairs in sorted order, skipping used drivers and
requests.  Whenever it returns a list, that list is the greedy sweep
of the sorted candidates, the candidates are genuinely sorted by the
code's key, the accepted pairs are pairwise distinct in both
coordinates, and each pair names an IDLE driver and a waiting
request. -/
theorem globalGreedy_assign_properties (drivers : List Driver)
    (waiting : List (ℕ × Request)) (l : List (ℕ × ℕ))
    (h : globalGreedyAssign drivers waiting = some l) :
    ¬ ggTie (ggCombos drivers waiting) ∧
    l = ggSweep ((ggCombos drivers waiting).insertionSort comboLE) [] [] ∧
    ((ggCombos drivers waiting).insertionSort comboLE).Sorted comboLE ∧
    l.Pairwise (fun a b => a.1 ≠ b.1 ∧ a.2 ≠ b.2) ∧
    ∀ p ∈ l, (∃ d, drivers[p.1]? = some d ∧ d.status = .IDLE) ∧
      ∃ r, (p.2, r) ∈ waiting := by
  have hnt : ¬ ggTie (ggCombos drivers waiting) := by
    intro ht
    simp only [globalGreedyAssign] at h
    rw [if_pos ht] at h
    cases h
  have hl : l = ggSweep ((ggCombos drivers waiting).insertionSort comboLE) [] [] := by
    simp only [globalGreedyAssign] at h
    rw [if_neg hnt] at h
    exact (Option.some.inj h).symm
  obtain ⟨hpw, hmem⟩ := globalGreedyAssign_good drivers waiting l h
  exact ⟨hnt, hl, List.sorted_insertionSort comboLE _, hpw, hmem⟩

open Classical in
/-- Witness for claim C8's amended statement at the two-driver
scenario. -/
theorem globalGreedy_assign_properties_witness :
    globalGreedyAssign [ggDriverA, ggDriverB] ggWaiting = some [(0, 0)] ∧
    (¬ ggTie (ggCombos [ggDriverA, ggDriverB] ggWaiting) ∧
     [((0 : ℕ), (0 : ℕ))] =
       ggSweep ((ggCombos [ggDriverA, ggDriverB] ggWaiting).insertionSort comboLE)
         [] [] ∧
     ((ggCombos [ggDriverA, ggDriverB] ggWaiting).insertionSort comboLE).Sorted
       comboLE ∧
     ([((0 : ℕ), (0 : ℕ))] : List (ℕ × ℕ)).Pairwise
       (fun a b => a.1 ≠ b.1 ∧ a.2 ≠ b.2) ∧
     ∀ p ∈ [((0 : ℕ), (0 : ℕ))],
       (∃ d, [ggDriverA, ggDriverB][p.1]? = some d ∧ d.status = .IDLE) ∧
       ∃ r, (p.2, r) ∈ ggWaiting) :=
  ⟨ggAssign_eval,
   globalGreedy_assign_properties [ggDriverA, ggDriverB] ggWaiting
     [((0 : ℕ), (0 : ℕ))] ggAssign_eval⟩

end DeliverySim
